import Mathlib

/-!
Verification of the RunScanner Wave-2/3 voice service (`voice/voice_common.py`,
`voice/voice_service.py`, `voice/voice_agent_api.py`, `voice/voice_llm.py`)
against its natural-language specification.

The development is a shallow embedding of the Python source:
* JSON values are modelled by `JVal`; Python dicts by association lists with
  Python dict semantics (`dset` replaces the value of an existing key in place
  and appends a new key at the end, as `d[k] = v` does).
* Python floats are modelled by rationals (`ℚ`); machine-float rounding of the
  similarity ratios is not modelled (all ratio arithmetic is exact).
* Python strings are modelled by `String` / `List Char`; the character classes
  used by the code (the regexes `[^a-z0-9 ]`, `\s`, `[A-Za-z0-9_-]`) are
  modelled over the ASCII code points that the code manipulates.
* The file system (voice_config.json, llm_state.json) is modelled as explicit
  state: `Option Dict`, where `none` stands for a missing or unparsable file.
-/

-- Rational arithmetic must evaluate inside `decide` / `rfl` witnesses below;
-- Batteries marks these core operations irreducible for the elaborator only
-- (the kernel never respects reducibility hints, so proofs are unaffected).
set_option allowUnsafeReducibility true

attribute [semireducible] Rat.mul Rat.inv Rat.add Rat.sub Rat.div Rat.ofScientific

/-- Model of a JSON value (numbers as exact rationals). -/
inductive JVal where
  | str (s : String)
  | num (q : ℚ)
  | bool (b : Bool)
  | null
  | list (l : List JVal)
  | dict (kvs : List (String × JVal))

/-- A Python dict holding JSON values, as an ordered association list. -/
abbrev Dict := List (String × JVal)

/-- Python `d.get(k)`: the value at the first occurrence of the key. -/
def dget (d : Dict) (k : String) : Option JVal :=
  match d with
  | [] => none
  | (k1, v1) :: rest => if k = k1 then some v1 else dget rest k

/-- Python `d[k] = v`: replace the value of an existing key in place,
append the key otherwise. -/
def dset (d : Dict) (k : String) (v : JVal) : Dict :=
  match d with
  | [] => [(k, v)]
  | (k1, v1) :: rest => if k = k1 then (k, v) :: rest else (k1, v1) :: dset rest k v

/-- Python `d.pop(k, None)`: drop the key. -/
def dremove (d : Dict) (k : String) : Dict :=
  d.filter (fun kv => kv.1 ≠ k)

/-- Python `d.update(p)`: fold the patch over the dict with `dset`. -/
def dupdate (d : Dict) (p : Dict) : Dict :=
  p.foldl (fun acc kv => dset acc kv.1 kv.2) d

/-- The value attached to the LAST occurrence of a key in an (arbitrary)
association list; this is what overlaying the list onto a base dict leaves
at that key. -/
def plast (p : Dict) (k : String) : Option JVal :=
  match p with
  | [] => none
  | (k1, v1) :: rest =>
    match plast rest k with
    | some v => some v
    | none => if k = k1 then some v1 else none

/-- Python truthiness of a JSON value. -/
def pyTruthy : JVal → Bool
  | JVal.str s => s ≠ ""
  | JVal.num q => q ≠ 0
  | JVal.bool b => b
  | JVal.null => false
  | JVal.list l => ¬ l.isEmpty
  | JVal.dict d => ¬ d.isEmpty

/-- Python `a or b` on JSON values. -/
def pyOr (v d : JVal) : JVal := if pyTruthy v then v else d

/-- Python whitespace (the ASCII part of `\s` / `str.strip()` / `str.split()`):
space, tab, newline, carriage return, vertical tab, form feed. -/
def wsChar (c : Char) : Bool :=
  decide (c.toNat = 32 ∨ c.toNat = 9 ∨ c.toNat = 10 ∨ c.toNat = 13 ∨
    c.toNat = 11 ∨ c.toNat = 12)

/-- Strip whitespace from both ends of a character list (Python `str.strip()`). -/
def stripWS (l : List Char) : List Char :=
  ((l.dropWhile wsChar).reverse.dropWhile wsChar).reverse

/-- Python `str.strip()`. -/
def pyStrip (s : String) : String := String.mk (stripWS s.data)

/-- Python `str.split()` (no separator): split on whitespace runs,
dropping empty pieces.  (Structurally recursive with one-character
look-ahead: a non-whitespace character either starts a new token — when at
the end or before whitespace the token is just itself — or extends the
token the rest of the list starts with.) -/
def splitWS : List Char → List (List Char)
  | [] => []
  | c :: cs =>
    let r := splitWS cs
    if wsChar c then r
    else
      match cs with
      | [] => [[c]]
      | d :: _ => if wsChar d then [c] :: r else (c :: r.headD []) :: r.tail

/-- `str.split()` on a `String`, yielding `String` tokens. -/
def pySplit (s : String) : List String := (splitWS s.data).map String.mk

/-- Python `str(v)` for a JSON value, used where the code coerces config
fields with `str(...)`.  The reprs of floats, lists and dicts are modelled
only by shape (they never coincide with the keyword strings the code
compares against, which is all the service inspects them for). -/
def pyStr : JVal → String
  | JVal.str s => s
  | JVal.num q => if q.den = 1 then toString q.num else toString q.num ++ "." ++ toString q.den
  | JVal.bool b => if b then "True" else "False"
  | JVal.null => "None"
  | JVal.list _ => "[\x2e\x2e\x2e]"
  | JVal.dict _ => "\x7b\x2e\x2e\x2e\x7d"

/-- ASCII decimal digit. -/
def digitChar (c : Char) : Bool := decide (48 ≤ c.toNat ∧ c.toNat ≤ 57)

/-- Value of a non-empty all-digit character list. -/
def digitsVal (l : List Char) : Nat :=
  l.foldl (fun acc c => acc * 10 + (c.toNat - 48)) 0

/-- Python `int(s)` for a string: optional surrounding whitespace, optional
sign, one or more digits; anything else raises (`none`). -/
def pyIntOfStr (s : String) : Option Int :=
  let l := stripWS s.data
  match l with
  | '-' :: rest => if rest ≠ [] ∧ rest.all digitChar then some (-(digitsVal rest : Int)) else none
  | '+' :: rest => if rest ≠ [] ∧ rest.all digitChar then some ((digitsVal rest : Int)) else none
  | _ => if l ≠ [] ∧ l.all digitChar then some ((digitsVal l : Int)) else none

/-- Rational truncation toward zero, as Python `int(float)` does. -/
def ratTrunc (q : ℚ) : Int := if q < 0 then ⌈q⌉ else ⌊q⌋

/-- Python `int(v)` on a JSON value; `none` models a raised exception. -/
def pyInt : JVal → Option Int
  | JVal.num q => some (ratTrunc q)
  | JVal.bool b => some (if b then 1 else 0)
  | JVal.str s => pyIntOfStr s
  | _ => none

-- ---------------------------------------------------------------------------
-- voice_common.py: configuration store
-- ---------------------------------------------------------------------------

/-- `DEFAULT_CFG` of voice_common.py. -/
def default_cfg : Dict :=
  [("mode", JVal.str "deaf"),
   ("conversation_timeout_sec", JVal.num 20),
   ("llm_timeout_sec", JVal.num 30),
   ("script", JVal.list [])]

/-- The script normalization both `load_voice_config` and `save_voice_config`
apply: a non-list `script` value is replaced by the empty list
(`out["script"] = out.get("script") if isinstance(out.get("script"), list) else []`). -/
def fixScript (d : Dict) : Dict :=
  dset d "script"
    (match dget d "script" with
     | some (JVal.list l) => JVal.list l
     | _ => JVal.list [])

/-- `save_voice_config(cfg)`: overlay onto defaults, normalize `script`;
the result is what the atomic write leaves in voice_config.json. -/
def save_voice_config (cfg : Dict) : Dict :=
  fixScript (dupdate default_cfg cfg)

/-- `load_voice_config()` acting on the current file contents
(`none` = missing or unparsable or not a JSON object).  Returns the loaded
config together with the file contents afterwards (the corrupt/missing case
rewrites the file with defaults via `save_voice_config(DEFAULT_CFG)`). -/
def load_voice_config (file : Option Dict) : Dict × Option Dict :=
  match file with
  | some obj => (fixScript (dupdate default_cfg obj), some obj)
  | none => (default_cfg, some (save_voice_config default_cfg))

/-- `update_voice_config(patch)`: read-modify-write; returns the new cfg
(as the Python function does) and the new file contents. -/
def update_voice_config (patch : Dict) (file : Option Dict) : Dict × Option Dict :=
  let cur := (load_voice_config file).1
  let cur2 := dupdate cur patch
  (cur2, some (save_voice_config cur2))

/-- The configuration as observed after `update_voice_config(patch)` followed
by `load_voice_config()` (claim C9's round trip). -/
def loadAfterUpdate (doc patch : Dict) : Dict :=
  (load_voice_config (update_voice_config patch (some doc)).2).1

-- ---------------------------------------------------------------------------
-- voice_service.py / voice_common.py: mode sanitization on load
-- ---------------------------------------------------------------------------

/-- The four enumerated modes. -/
def mode_values : List String := ["deaf", "name_listen", "conversation", "llm_dummy"]

/-- `_sanitize_mode` of voice_service.py on a string. -/
def sanitize_mode (m : String) : String :=
  let m2 := pyStrip m
  if m2 = "deaf" ∨ m2 = "name_listen" ∨ m2 = "conversation" ∨ m2 = "llm_dummy"
  then m2 else "deaf"

/-- `_sanitize_mode((mode or "").strip())` semantics on a raw JSON value:
a falsy value becomes `""` (hence `"deaf"`), a truthy non-string raises
`AttributeError` on `.strip()` (modelled as `none`). -/
def sanitize_mode_v (v : JVal) : Option String :=
  match pyOr v (JVal.str "") with
  | JVal.str s => some (sanitize_mode s)
  | _ => none

/-- The mode the service observes after loading the persisted document
(voice_service.py lines 203-204 / 224: `_sanitize_mode(cfg.get("mode", "deaf"))`
applied to the result of `load_voice_config`). -/
def observed_mode (file : Option Dict) : Option String :=
  sanitize_mode_v ((dget (load_voice_config file).1 "mode").getD (JVal.str "deaf"))

-- ---------------------------------------------------------------------------
-- difflib.SequenceMatcher(None, a, b).ratio(), as used by voice_common._ratio.
-- The strings compared here are single tokens, far below difflib's 200-char
-- autojunk threshold, so no element is junk or popular; without junk the
-- post-loop extension passes of find_longest_match cannot extend the block
-- the dictionary loop found, so they are omitted.
-- ---------------------------------------------------------------------------

/-- The body of find_longest_match's loop over one position `i` of `a`:
`js` are the positions of `a[i]` in `b` (within `[blo, bhi)`), in increasing
order; `j2len` maps `j` to the length of the longest match ending at the
previous row; the running best block `(besti, bestj, bestsize)` is updated
whenever a strictly longer match appears. -/
def flmInner (j2len : Nat → Nat) (i : Nat) (js : List Nat)
    (best : Nat × Nat × Nat) : (Nat → Nat) × (Nat × Nat × Nat) :=
  js.foldl
    (fun st j =>
      let k := (if j = 0 then 0 else j2len (j - 1)) + 1
      let nj : Nat → Nat := fun j2 => if j2 = j then k else st.1 j2
      let nb := if k > st.2.2.2 then (i + 1 - k, j + 1 - k, k) else st.2
      (nj, nb))
    ((fun _ => 0), best)

/-- difflib's `find_longest_match(alo, ahi, blo, bhi)` (no junk). -/
def findLongestMatch (a b : List Char) (alo ahi blo bhi : Nat) : Nat × Nat × Nat :=
  let init : (Nat → Nat) × (Nat × Nat × Nat) := ((fun _ => 0), (alo, blo, 0))
  let st := (List.range ahi).foldl
    (fun st i =>
      if i < alo then st else
      let js := (List.range bhi).filter
        (fun j => decide (blo ≤ j) && (b.getD j (Char.ofNat 0) == a.getD i (Char.ofNat 0)))
      flmInner st.1 i js st.2)
    init
  st.2

/-- Total size of difflib's matching blocks: recurse left and right of the
longest match.  `fuel` only bounds the recursion depth; each recursive call
strictly shrinks `ahi - alo`, so `a.length + b.length + 1` is always enough. -/
def mbSum (a b : List Char) : Nat → Nat → Nat → Nat → Nat → Nat
  | 0, _, _, _, _ => 0
  | fuel + 1, alo, ahi, blo, bhi =>
    let r := findLongestMatch a b alo ahi blo bhi
    let i := r.1
    let j := r.2.1
    let k := r.2.2
    if k = 0 then 0
    else k + (if alo < i ∧ blo < j then mbSum a b fuel alo i blo j else 0)
           + (if i + k < ahi ∧ j + k < bhi then mbSum a b fuel (i + k) ahi (j + k) bhi else 0)

/-- `_ratio(a, b)` of voice_common.py: `SequenceMatcher(None, a, b).ratio()`,
i.e. `2.0 * M / T` where `M` is the total matched size and `T` the total
length (`1.0` when both strings are empty). -/
def ratio (sa sb : String) : ℚ :=
  let a := sa.data
  let b := sb.data
  let m := mbSum a b (a.length + b.length + 1) 0 a.length 0 b.length
  let t := a.length + b.length
  if t = 0 then 1 else 2 * (m : ℚ) / (t : ℚ)

-- ---------------------------------------------------------------------------
-- voice_common.py: normalize_text and the wake-name / fuzzy matchers
-- ---------------------------------------------------------------------------

/-- `CALLSIGN_MIN_RATIO` (voice_common.py line 17). -/
def callsign_min_ratio : ℚ := 82/100

/-- `PREFIX_MIN_RATIO` (voice_common.py line 18). -/
def prefix_min_ratio : ℚ := 70/100

/-- `ALLOW_CALLSIGN_ONLY` (voice_common.py line 19). -/
def allow_callsign_only : Bool := true

/-- A character of the class `[a-z0-9 ]` (kept by normalize_text's regex). -/
def goodChar (c : Char) : Bool :=
  decide ((97 ≤ c.toNat ∧ c.toNat ≤ 122) ∨ (48 ≤ c.toNat ∧ c.toNat ≤ 57) ∨ c.toNat = 32)

/-- A lowercase-alphanumeric character `[a-z0-9]`. -/
def alnumChar (c : Char) : Bool :=
  decide ((97 ≤ c.toNat ∧ c.toNat ≤ 122) ∨ (48 ≤ c.toNat ∧ c.toNat ≤ 57))

/-- `str.lower()` on one character (ASCII range; the non-ASCII characters a
Unicode lowering could produce are wiped by the `[^a-z0-9 ]` substitution
that immediately follows in normalize_text). -/
def pyLowerChar (c : Char) : Char :=
  if 65 ≤ c.toNat ∧ c.toNat ≤ 90 then Char.ofNat (c.toNat + 32) else c

/-- `.replace("-", " ").replace("_", " ")` on one character. -/
def dashUnd (c : Char) : Char := if c = '-' ∨ c = '_' then ' ' else c

/-- `re.sub(r"[^a-z0-9 ]+", " ", s)`: each maximal run of characters outside
`[a-z0-9 ]` becomes a single space (the space is emitted for the character
that closes the run: the one at the end of the string or followed by a kept
character). -/
def subBad : List Char → List Char
  | [] => []
  | c :: cs =>
    let r := subBad cs
    if goodChar c then c :: r
    else
      match cs with
      | [] => [' ']
      | d :: _ => if goodChar d then ' ' :: r else r

/-- `re.sub(r"\s+", " ", s)`: each maximal whitespace run becomes one space. -/
def collapseWS : List Char → List Char
  | [] => []
  | c :: cs =>
    let r := collapseWS cs
    if ¬ wsChar c then c :: r
    else
      match cs with
      | [] => [' ']
      | d :: _ => if ¬ wsChar d then ' ' :: r else r

/-- The `canon` table of normalize_text: known recognizer confusions. -/
def canonTok (t : List Char) : List Char :=
  if t = "twins".data then "twin".data
  else if t = "skull".data then "scout".data
  else if t = "alfa".data then "alpha".data
  else if t = "bravo".data then "bravo".data
  else if t = "alpha".data then "alpha".data
  else t

/-- `" ".join(toks)`. -/
def joinToks : List (List Char) → List Char
  | [] => []
  | [t] => t
  | t :: t2 :: ts => t ++ ' ' :: joinToks (t2 :: ts)

/-- `normalize_text(s)` of voice_common.py: lowercase, dashes/underscores to
spaces, strip non-alphanumerics, collapse whitespace, strip, then
`" ".join(canon.get(t, t) for t in s.split())`. -/
def normalize_text (s : String) : String :=
  let l1 := s.data.map (fun c => dashUnd (pyLowerChar c))
  let l2 := subBad l1
  let l3 := collapseWS l2
  let l4 := stripWS l3
  if l4.isEmpty then ""
  else String.mk (joinToks ((splitWS l4).map canonTok))

/-- The token list normalize_text emits (empty when the cleaned text is
empty): the canon-mapped whitespace-split tokens of the cleaned text. -/
def normToks (s : String) : List (List Char) :=
  (splitWS (stripWS (collapseWS (subBad
    (s.data.map (fun c => dashUnd (pyLowerChar c))))))).map canonTok

/-- Claim C10's shape predicate: every token is non-empty and consists of
lowercase-alphanumeric characters only. -/
def alnumToks (toks : List (List Char)) : Prop :=
  ∀ t ∈ toks, t ≠ [] ∧ ∀ c ∈ t, alnumChar c

/-- `best_token_match(token, options)`: best-ratio option (strictly improving
scan starting from `("", 0.0)`). -/
def best_token_match (token : String) (options : List String) : String × ℚ :=
  options.foldl
    (fun best o =>
      let r := ratio token o
      if r > best.2 then (o, r) else best)
    ("", 0)

/-- The callsign scan of match_wake_name: best `best_token_match(t, [callsign])`
over the utterance tokens, starting from `("", 0.0)`. -/
def callsignBest (toks : List String) (callsign : String) : String × ℚ :=
  toks.foldl
    (fun cb t =>
      let br := best_token_match t [callsign]
      if br.2 > cb.2 then br else cb)
    ("", 0)

/-- Python `max(a, b)` on two floats. -/
def pyMax (a b : ℚ) : ℚ := if a < b then b else a

/-- `match_wake_name(text_norm, callsign=...)` of voice_common.py.  The
numeric interpolation inside the `callsign_no` reason string is dropped;
the boolean, which is all the service consumes, is exact. -/
def match_wake_name (text_norm : String) (callsign : String) : Bool × String :=
  let toks := pySplit text_norm
  match toks with
  | [] => (false, "no tokens")
  | _ =>
    let cs_best := callsignBest toks callsign
    if cs_best.2 < callsign_min_ratio then (false, "callsign_no")
    else
      let prefix_ok := toks.any
        (fun t => decide (pyMax (ratio t "twin") (ratio t "scout") ≥ prefix_min_ratio))
      if prefix_ok then (true, "ok(prefix+callsign)")
      else if allow_callsign_only then (true, "ok(callsign-only)")
      else (false, "prefix_no")

/-- Best similarity of one target token against all text tokens
(fuzzy_match's inner loop). -/
def bestSim (tt : String) (text_tokens : List String) : ℚ :=
  text_tokens.foldl
    (fun best st =>
      let r := ratio tt st
      if r > best then r else best)
    0

/-- The position-aware cutoff of fuzzy_match: first token uses the loose
first-token cutoff, the last token the strict last-token cutoff, interior
tokens the default cutoff (a single-token target falls in the `i = 0` arm). -/
def fuzzyCutoff (n i : Nat) (tc fc lc : ℚ) : ℚ :=
  if i = 0 then fc else if i = n - 1 then lc else tc

/-- fuzzy_match's loop over the target tokens, carrying the index, hit count
and score sum; `none` models the early `return False, 0.0` taken when the
mandatory last token misses its cutoff. -/
def fuzzyLoop (text_tokens : List String) (n : Nat) (tc fc lc : ℚ) (rl : Bool) :
    List String → Nat → Nat → ℚ → Option (Nat × ℚ)
  | [], _, hits, ssum => some (hits, ssum)
  | tt :: rest, i, hits, ssum =>
    let best := bestSim tt text_tokens
    let cutoff := fuzzyCutoff n i tc fc lc
    if best ≥ cutoff then
      fuzzyLoop text_tokens n tc fc lc rl rest (i + 1) (hits + 1) (ssum + best)
    else if rl ∧ i = n - 1 then none
    else fuzzyLoop text_tokens n tc fc lc rl rest (i + 1) hits ssum

/-- `fuzzy_match(text_norm, target, ...)` of voice_common.py, with the
source's default cutoffs. -/
def fuzzy_match (text_norm target : String)
    (token_cutoff : ℚ := 80/100) (first_token_cutoff : ℚ := 85/100)
    (last_token_cutoff : ℚ := 90/100) (min_hit : Nat := 3)
    (require_last_token : Bool := true) : Bool × ℚ :=
  let text_tokens := pySplit text_norm
  let target_tokens := pySplit target
  if text_tokens.isEmpty ∨ target_tokens.isEmpty then (false, 0)
  else
    match fuzzyLoop text_tokens target_tokens.length token_cutoff
        first_token_cutoff last_token_cutoff require_last_token
        target_tokens 0 0 0 with
    | none => (false, 0)
    | some (hits, ssum) =>
      if hits < min_hit then (false, 0) else (true, ssum / (hits : ℚ))

-- ---------------------------------------------------------------------------
-- voice_llm.py: the LLM exchange client
-- ---------------------------------------------------------------------------

/-- A character of the class `[A-Za-z0-9_-]` (voice_llm `_ID_SAFE_RE`). -/
def idSafeChar (c : Char) : Bool :=
  decide ((65 ≤ c.toNat ∧ c.toNat ≤ 90) ∨ (97 ≤ c.toNat ∧ c.toNat ≤ 122) ∨
    (48 ≤ c.toNat ∧ c.toNat ≤ 57) ∨ c.toNat = 95 ∨ c.toNat = 45)

/-- `_id_is_safe(s)`: non-empty and matching `^[A-Za-z0-9_-]+$`. -/
def id_is_safe (s : String) : Bool := s ≠ "" && s.data.all idSafeChar

/-- The recurring config/state read `str(d.get(k) or default).strip()`. -/
def llmField (d : Dict) (k : String) (dflt : String) : String :=
  pyStrip (pyStr (pyOr ((dget d k).getD JVal.null) (JVal.str dflt)))

/-- `_pick_session_id(llm_cfg)`. -/
def pick_session_id (llm : Dict) : String :=
  let sid := llmField llm "session_id" ""
  if sid = "" then llmField llm "conversation_id" "" else sid

/-- `int(d.get(k) or n)`; `none` models a raised exception. -/
def llmInt (d : Dict) (k : String) (dflt : ℚ) : Option Int :=
  pyInt (pyOr ((dget d k).getD JVal.null) (JVal.num dflt))

/-- Python `float(s)` for a string: optional sign, digits with an optional
fractional part (scientific notation is not modelled); `none` = raised. -/
def pyFloatOfStr (s : String) : Option ℚ :=
  let l := stripWS s.data
  let core := fun (m : List Char) =>
    match m.splitOn '.' with
    | [intPart] =>
      if intPart ≠ [] ∧ intPart.all digitChar then some ((digitsVal intPart : ℚ)) else none
    | [intPart, fracPart] =>
      if (intPart ≠ [] ∨ fracPart ≠ []) ∧ intPart.all digitChar ∧ fracPart.all digitChar
      then some ((digitsVal intPart : ℚ) +
        (digitsVal fracPart : ℚ) / ((10 : ℚ) ^ fracPart.length))
      else none
    | _ => none
  match l with
  | '-' :: rest => (core rest).map (fun q => -q)
  | '+' :: rest => core rest
  | _ => core l

/-- Python `float(v)` on a JSON value; `none` models a raised exception. -/
def pyFloat : JVal → Option ℚ
  | JVal.num q => some q
  | JVal.bool b => some (if b then 1 else 0)
  | JVal.str s => pyFloatOfStr s
  | _ => none

/-- `float(d.get(k) or q)`. -/
def llmFloat (d : Dict) (k : String) (dflt : ℚ) : Option ℚ :=
  pyFloat (pyOr ((dget d k).getD JVal.null) (JVal.num dflt))

/-- The request body `_do_request` posts (system prompt, headers and
endpoint are fixed by the code and folded into the oracle). -/
structure PayloadM where
  model : String
  userText : String
  maxOut : Int
  temperature : ℚ
  prev : Option String
  session : Option String
deriving DecidableEq

/-- What the remote endpoint does with one request: raise, or answer with a
status, a body text and (when the body parses) a JSON object. -/
inductive HttpOutcome where
  | exc (msg : String)
  | resp (status : Nat) (bodyText : String) (json : Option Dict)

/-- `(r.text or "")[:400].replace("\n", " ")`. -/
def truncBody (b : String) : String :=
  String.mk ((b.data.take 400).map (fun c => if c = '\n' then ' ' else c))

/-- `_do_request(prev)` given the endpoint oracle:
`(ok, detail, json, http_code, body)`. -/
def do_request (http : PayloadM → HttpOutcome) (p : PayloadM) :
    Bool × String × Option Dict × Nat × String :=
  match http p with
  | HttpOutcome.exc m => (false, "LLM request failed: " ++ m, none, 0, "")
  | HttpOutcome.resp st body j =>
    if 300 ≤ st then
      (false, "LLM http=" ++ toString st ++ " body=" ++ truncBody body, none, st,
        truncBody body)
    else
      match j with
      | none => (false, "LLM returned non-JSON response", none, st, "")
      | some jd => (true, "ok", some jd, st, "")

/-- Python `v == "literal"` for a JSON value against a string. -/
def jvalEqStr (v : JVal) (s : String) : Bool :=
  match v with
  | JVal.str t => t = s
  | _ => false

/-- The inner loop of `_extract_output_text` over one item's content blocks;
`none` models an exception on an ill-typed block (`c.get` on a non-dict, or
`.strip()` on a truthy non-string text). -/
def extractContent : List JVal → Option (List String)
  | [] => some []
  | c :: rest =>
    match c with
    | JVal.dict cd =>
      if jvalEqStr ((dget cd "type").getD JVal.null) "output_text" then
        match pyOr ((dget cd "text").getD JVal.null) (JVal.str "") with
        | JVal.str s =>
          (extractContent rest).map
            (fun out => if pyStrip s ≠ "" then pyStrip s :: out else out)
        | _ => none
      else extractContent rest
    | _ => none

/-- The outer loop of `_extract_output_text` over the output items. -/
def extractItemsGo : List JVal → Option (List String)
  | [] => some []
  | item :: rest =>
    match item with
    | JVal.dict d =>
      match pyOr ((dget d "content").getD JVal.null) (JVal.list []) with
      | JVal.list cs =>
        match extractContent cs with
        | none => none
        | some out1 => (extractItemsGo rest).map (fun out2 => out1 ++ out2)
      | _ => none
    | _ => none

/-- `"\n".join(out)`. -/
def joinNL : List String → String
  | [] => ""
  | [t] => t
  | t :: t2 :: ts => t ++ "\n" ++ joinNL (t2 :: ts)

/-- `_extract_output_text(resp_json)`: collect stripped text chunks of type
`output_text`, join with newlines, strip. -/
def extract_output_text (j : Dict) : Option String :=
  match pyOr ((dget j "output").getD JVal.null) (JVal.list []) with
  | JVal.list items =>
    match extractItemsGo items with
    | none => none
    | some parts => some (pyStrip (joinNL parts))
  | _ => none

/-- The result of one `llm_exchange` call: the returned pair (`none` when an
exception escaped), the llm_state.json contents afterwards, the requests
issued in order, and the parsed success response consumed (observer field
recording which response the state update read its id from). -/
structure LLMResult where
  res : Option (Bool × String)
  state : Dict
  requests : List PayloadM
  respJson : Option Dict

/-- The request payload `llm_exchange` builds for a given previous id. -/
def llm_payload (llm : Dict) (user : String) (maxOut : Int) (temp : ℚ)
    (prev : Option String) : PayloadM :=
  ⟨llmField llm "model" "", user, maxOut, temp, prev,
   (if pick_session_id llm ≠ "" then some (pick_session_id llm) else none)⟩

/-- The tail of `llm_exchange` after the request(s): update state with the
new response id (only when non-empty and safe), the session id and the
timestamp, then extract the reply, substituting the fixed fallback sentence
for an empty extraction. -/
def llm_finish (session_id ts : String) (st : Dict)
    (r : Bool × String × Option Dict × Nat × String)
    (reqs : List PayloadM) : LLMResult :=
  if ¬ r.1 then ⟨some (false, r.2.1), st, reqs, none⟩
  else
    match r.2.2.1 with
    | none => ⟨some (false, r.2.1), st, reqs, none⟩
    | some jd =>
      let new_id := llmField jd "id" ""
      let st3 := if new_id ≠ "" ∧ id_is_safe new_id
        then dset st "previous_response_id" (JVal.str new_id) else st
      let st4 := if session_id ≠ "" then dset st3 "session_id" (JVal.str session_id)
        else st3
      let st5 := dset st4 "updated_at" (JVal.str ts)
      match extract_output_text jd with
      | none => ⟨none, st5, reqs, some jd⟩
      | some txt0 =>
        ⟨some (true, if txt0 = "" then "I do not have an answer yet." else txt0),
         st5, reqs, some jd⟩

/-- `llm_exchange(user_text)` of voice_llm.py.  `cfg` is the loaded voice
config, `keyContent` the contents of the api-key file ("" when missing or
unreadable, as `_read_text_file` returns), `st0` the llm_state.json
contents, `ts` the wall-clock stamp `_now_ts()` and `http` the remote
endpoint. -/
def llm_exchange (user_text0 : String) (cfg : Dict) (keyContent : String)
    (st0 : Dict) (ts : String) (http : PayloadM → HttpOutcome) : LLMResult :=
  let user_text := pyStrip user_text0
  if user_text = "" then ⟨some (true, ""), st0, [], none⟩
  else
    match pyOr ((dget cfg "llm").getD JVal.null) (JVal.dict []) with
    | JVal.dict llm =>
      let model_id := llmField llm "model" ""
      let api_key_file := llmField llm "api_key_file" ""
      match llmInt llm "timeout_sec" 30 with
      | none => ⟨none, st0, [], none⟩
      | some _ =>
      match llmInt llm "max_output_tokens" 300 with
      | none => ⟨none, st0, [], none⟩
      | some max_out =>
      match llmFloat llm "temperature" (2/5) with
      | none => ⟨none, st0, [], none⟩
      | some temp =>
      let session_id := pick_session_id llm
      if model_id = "" then
        ⟨some (false, "LLM config missing: llm.model"), st0, [], none⟩
      else if api_key_file = "" then
        ⟨some (false, "LLM config missing: llm.api_key_file"), st0, [], none⟩
      else if pyStrip keyContent = "" then
        ⟨some (false, "LLM key file empty: " ++ api_key_file), st0, [], none⟩
      else
        let prev_id0 := llmField st0 "previous_response_id" ""
        let cleaned := prev_id0 ≠ "" ∧ ¬ id_is_safe prev_id0
        let prev_id := if cleaned then "" else prev_id0
        let st1 := if cleaned
          then dset (dremove st0 "previous_response_id") "updated_at" (JVal.str ts)
          else st0
        let pFirst := llm_payload llm user_text max_out temp
          (if prev_id ≠ "" then some prev_id else none)
        let first := do_request http pFirst
        if ¬ first.1 ∧ first.2.2.2.1 = 400 ∧ prev_id ≠ "" then
          let st2 := dset (dremove st1 "previous_response_id") "updated_at" (JVal.str ts)
          let pRetry := llm_payload llm user_text max_out temp none
          llm_finish session_id ts st2 (do_request http pRetry) [pFirst, pRetry]
        else
          llm_finish session_id ts st1 first [pFirst]
    | _ => ⟨none, st0, [], none⟩

-- ---------------------------------------------------------------------------
-- voice_service.py: the main service loop, one iteration as a step function.
-- Unmodelled effects (TTS, logging, sleeping) are dropped; the write-only
-- variables mode_enter_ts and last_hb (never read by any branch condition)
-- are omitted from the state.  Calls whose failure the source only sees as a
-- raised exception (file IO, STT, subprocess) are modelled by oracle inputs;
-- `exc` stands for such a call raising at the start of the try body, while
-- exceptions the embedded code itself produces (int() on a bad timeout value,
-- .strip()/.get() on a non-string/non-dict) are modelled exactly, at the
-- program point where they occur, via `Except.error`.
-- ---------------------------------------------------------------------------

/-- `_cfg_bool(cfg, key, default)`: `bool(cfg.get(key, default))`. -/
def cfg_bool (cfg : Dict) (k : String) (d : Bool) : Bool :=
  match dget cfg k with
  | some v => pyTruthy v
  | none => d

/-- `_cfg_int(cfg, key, default)`: `int(cfg.get(key, default))`, with the
default returned when int() raises. -/
def cfg_int (cfg : Dict) (k : String) (d : Int) : Int :=
  match dget cfg k with
  | some v => (pyInt v).getD d
  | none => d

/-- The `min_chars` computation the loop repeats at each use site:
`_cfg_int(cfg, "test_min_chars", 1) if test_easy else 3`. -/
def min_chars_of (cfg : Dict) (testEasy : Bool) : Int :=
  if testEasy then cfg_int cfg "test_min_chars" 1 else 3

/-- Python substring test `p in t` on character lists. -/
def strIn : List Char → List Char → Bool
  | p, [] => p.isEmpty
  | p, c :: cs => p.isPrefixOf (c :: cs) || strIn p cs

/-- `_phrase_match(cfg, norm_text, phrase)` of voice_service.py. -/
def phrase_match (cfg : Dict) (norm_text phrase : String) : Bool :=
  let testEasy := cfg_bool cfg "test_easy_match" false
  let mc := min_chars_of cfg testEasy
  if testEasy && cfg_bool cfg "test_phrase_always" false then
    decide ((norm_text.length : Int) ≥ mc)
  else
    let p := normalize_text phrase
    !(p == "") && strIn p.data norm_text.data

/-- The `reason=` strings `_enter_mode` is called with (plus the
exception-fallback of the handler), as an enumeration. -/
inductive Reason where
  | external_request
  | stt_unavailable
  | wake_match
  | conversation_timeout
  | enter_llm_action
  | llm_timeout
  | unknown_mode
  | exception_fallback
deriving DecidableEq

/-- The loop state: current mode, last logged mode (`last_mode`), whether
Vosk is initialized (`stt is not None`), the voice_config.json contents, and
the two activity timestamps. -/
structure SvcState where
  mode : String
  lastMode : Option String
  sttReady : Bool
  file : Option Dict
  convLastAct : ℚ
  llmLastAct : ℚ

/-- The oracle inputs of one iteration: an optional external rewrite of
voice_config.json just before the iteration's load, whether an unmodelled
call raises (and whether the except-handler's own load+enter then succeeds),
the `time.time()` values read at the iteration's clock sites, the `init_vosk`
outcome, the `stt_loop_once` outcome (`none` = chunk error), and the
`llm_exchange` outcome. -/
structure SvcInput where
  extWrite : Option Dict
  exc : Bool
  excHandlerOk : Bool
  tTop : ℚ
  tCheck : ℚ
  tSpeech : ℚ
  tReply : ℚ
  sttInitOk : Bool
  chunk : Option String
  llmOk : Bool
  llmReply : String

/-- `_enter_mode(cfg, new_mode, ...)`: sanitize, persist
`{**cfg, "mode": new_mode}` via save_voice_config, speak (no state effect).
Returns the new mode and the new file contents. -/
def enter_mode (cfg : Dict) (m : String) : String × Dict :=
  let m2 := sanitize_mode m
  (m2, save_voice_config (dset cfg "mode" (JVal.str m2)))

abbrev StepOut := SvcState × List Reason

/-- The name_listen branch (wake listening).  `c` is the callsign. -/
def nameListenStep (c : String) (cfg : Dict) (i : SvcInput) (s : SvcState)
    (rs : List Reason) : Except StepOut StepOut :=
  match i.chunk with
  | none => Except.ok (s, rs)
  | some raw =>
    let norm := normalize_text raw
    let testEasy := cfg_bool cfg "test_easy_match" false
    let mc := min_chars_of cfg testEasy
    let matched :=
      if testEasy && cfg_bool cfg "test_wake_always" false
      then decide ((norm.length : Int) ≥ mc)
      else (match_wake_name norm c).1
    if matched then
      Except.ok ({ s with mode := (enter_mode cfg "conversation").1,
                          file := some (enter_mode cfg "conversation").2 },
        rs ++ [Reason.wake_match])
    else Except.ok (s, rs)

/-- The conversation script scan (`for item in script`): returns the first
hit's action (reply and status.report speak only), `none` when no item hits,
and an error when an item reached by the scan is not a dict (its `.get`
raises). -/
def scanScript (cfg : Dict) (testEasy phraseAlways : Bool) (mc : Int)
    (norm : String) : List JVal → Except Unit (Option String)
  | [] => Except.ok none
  | JVal.dict item :: rest =>
    let phrase := pyStrip (pyStr (pyOr ((dget item "phrase").getD JVal.null) (JVal.str "")))
    let action := pyStrip (pyStr (pyOr ((dget item "action").getD JVal.null) (JVal.str "")))
    if phrase = "" then scanScript cfg testEasy phraseAlways mc norm rest
    else if (norm.length : Int) < mc then scanScript cfg testEasy phraseAlways mc norm rest
    else if (if testEasy && phraseAlways then true else phrase_match cfg norm phrase)
    then Except.ok (some action)
    else scanScript cfg testEasy phraseAlways mc norm rest
  | _ :: _ => Except.error ()

/-- The conversation branch: timeout check against `conv_last_activity_ts`
(`int(cfg.get("conversation_timeout_sec") or 20)` raising on a bad value),
then a chunk, speech-activity reset, and the script scan; `enter.llm` on the
first hit is the only way into llm_dummy.  A truthy non-list script value
raises when its first element reaches `.get` (non-empty dict iterates keys,
a string iterates characters, a number is not iterable). -/
def convStep (cfg : Dict) (i : SvcInput) (s : SvcState) (rs : List Reason) :
    Except StepOut StepOut :=
  match pyInt (pyOr ((dget cfg "conversation_timeout_sec").getD JVal.null) (JVal.num 20)) with
  | none => Except.error (s, rs)
  | some convTo =>
    if (convTo : ℚ) ≤ i.tCheck - s.convLastAct then
      Except.ok ({ s with mode := (enter_mode cfg "name_listen").1,
                          file := some (enter_mode cfg "name_listen").2 },
        rs ++ [Reason.conversation_timeout])
    else
      match i.chunk with
      | none => Except.ok (s, rs)
      | some raw =>
        let norm := normalize_text raw
        let testEasy := cfg_bool cfg "test_easy_match" false
        let mc := min_chars_of cfg testEasy
        let s1 := if (norm.length : Int) ≥ mc then { s with convLastAct := i.tSpeech } else s
        match pyOr ((dget cfg "script").getD JVal.null) (JVal.list []) with
        | JVal.list items =>
          let phraseAlways := cfg_bool cfg "test_phrase_always" false
          let items2 := if testEasy && phraseAlways && !items.isEmpty then items.take 1 else items
          match scanScript cfg testEasy phraseAlways mc norm items2 with
          | Except.error _ => Except.error (s1, rs)
          | Except.ok none => Except.ok (s1, rs)
          | Except.ok (some action) =>
            if action = "enter.llm" then
              Except.ok ({ s1 with mode := (enter_mode cfg "llm_dummy").1,
                                   file := some (enter_mode cfg "llm_dummy").2 },
                rs ++ [Reason.enter_llm_action])
            else Except.ok (s1, rs)
        | _ => Except.error (s1, rs)

/-- The value `llm_last_activity_ts` holds after a qualifying-speech
llm_dummy iteration: the speech reset, superseded by the reply/failure reset
when one happens (ok with a blank reply resets only at the speech time). -/
def actOf (i : SvcInput) : ℚ :=
  if i.llmOk then (if pyStrip i.llmReply ≠ "" then i.tReply else i.tSpeech) else i.tReply

/-- The llm_dummy branch: timeout measured from `llm_last_activity_ts`
(`int(cfg.get("llm_timeout_sec") or 30)` raising on a bad value), then a
chunk; qualifying speech resets the activity timestamp, and the exchange's
reply or failure resets it again. -/
def llmStep (cfg : Dict) (i : SvcInput) (s : SvcState) (rs : List Reason) :
    Except StepOut StepOut :=
  match pyInt (pyOr ((dget cfg "llm_timeout_sec").getD JVal.null) (JVal.num 30)) with
  | none => Except.error (s, rs)
  | some llmTo =>
    if (llmTo : ℚ) ≤ i.tCheck - s.llmLastAct then
      Except.ok ({ s with mode := (enter_mode cfg "name_listen").1,
                          file := some (enter_mode cfg "name_listen").2 },
        rs ++ [Reason.llm_timeout])
    else
      match i.chunk with
      | none => Except.ok (s, rs)
      | some raw =>
        let norm := normalize_text raw
        let testEasy := cfg_bool cfg "test_easy_match" false
        let mc := min_chars_of cfg testEasy
        if (norm.length : Int) ≥ mc then
          Except.ok ({ s with llmLastAct := actOf i }, rs)
        else Except.ok (s, rs)

/-- One pass through the try body of the while loop: load (after any external
write), observe the requested mode (raising on a truthy non-string), apply an
external deaf/name_listen request, run the transition-log block (which resets
the activity timestamp of a newly entered mode), then the mode branch.
`Except.error` carries the state at the raise point. -/
def stepCore (c : String) (s0 : SvcState) (i : SvcInput) (f0 : Option Dict) :
    Except StepOut StepOut :=
  if i.exc then Except.error ({ s0 with file := f0 }, [])
  else
    let cfg := (load_voice_config f0).1
    let f1 := (load_voice_config f0).2
    match sanitize_mode_v ((dget cfg "mode").getD (JVal.str "deaf")) with
    | none => Except.error ({ s0 with file := f1 }, [])
    | some requested =>
      let ext : Bool := decide ((requested = "deaf" ∨ requested = "name_listen") ∧
        requested ≠ s0.mode)
      let m1 := if ext then (enter_mode cfg requested).1 else s0.mode
      let f2 := if ext then some (enter_mode cfg requested).2 else f1
      let rs1 := if ext then [Reason.external_request] else []
      let s2 : SvcState :=
        if some m1 ≠ s0.lastMode then
          { mode := m1, lastMode := some m1, sttReady := s0.sttReady, file := f2,
            convLastAct := if m1 = "conversation" then i.tTop else s0.convLastAct,
            llmLastAct := if m1 = "llm_dummy" then i.tTop else s0.llmLastAct }
        else { s0 with mode := m1, file := f2 }
      if s2.mode = "deaf" then Except.ok (s2, rs1)
      else if !s2.sttReady && !i.sttInitOk then
        Except.ok ({ s2 with mode := (enter_mode cfg "name_listen").1,
                             file := some (enter_mode cfg "name_listen").2 },
          rs1 ++ [Reason.stt_unavailable])
      else
        let s3 := { s2 with sttReady := true }
        if s3.mode = "name_listen" then nameListenStep c cfg i s3 rs1
        else if s3.mode = "conversation" then convStep cfg i s3 rs1
        else if s3.mode = "llm_dummy" then llmStep cfg i s3 rs1
        else Except.ok ({ s3 with mode := (enter_mode cfg "name_listen").1,
                                  file := some (enter_mode cfg "name_listen").2 },
          rs1 ++ [Reason.unknown_mode])

/-- One pass through the try body, reading voice_config.json as it stands
after any external write. -/
def stepTry (c : String) (s0 : SvcState) (i : SvcInput) : Except StepOut StepOut :=
  stepCore c s0 i (match i.extWrite with | some d => some d | none => s0.file)

/-- One full iteration: the try body, and on a raise the except handler
(fresh load, `_enter_mode(cfg, "name_listen", reason="exception_fallback")`),
which may itself fail and leave everything as it was. -/
def stepR (c : String) (s0 : SvcState) (i : SvcInput) : StepOut :=
  match stepTry c s0 i with
  | Except.ok out => out
  | Except.error (s, rs) =>
    if i.excHandlerOk then
      let cfg2 := (load_voice_config s.file).1
      ({ s with mode := (enter_mode cfg2 "name_listen").1,
                file := some (enter_mode cfg2 "name_listen").2 },
        rs ++ [Reason.exception_fallback])
    else (s, rs)

/-- The loop run: state after `n` iterations under the input schedule. -/
def svcRun (c : String) (s0 : SvcState) (ins : ℕ → SvcInput) : ℕ → SvcState
  | 0 => s0
  | n + 1 => (stepR c (svcRun c s0 ins n) (ins n)).1

/-- The requested mode one iteration observes:
`_sanitize_mode(cfg.get("mode", "deaf"))` on the loaded config (after any
external write). -/
def observedReq (s : SvcState) (i : SvcInput) : Option String :=
  sanitize_mode_v ((dget (load_voice_config
    (match i.extWrite with | some d => some d | none => s.file)).1 "mode").getD
    (JVal.str "deaf"))

/-- `exec_voice_mode_set(args)` of voice_agent_api.py:
`(args.get("mode") or "").strip()` (raising on a truthy non-string), rejects
anything but deaf/name_listen, otherwise patches the config.  Returns the
(ok, detail) answer and the file contents afterwards. -/
def exec_voice_mode_set (args : Dict) (file : Option Dict) :
    Option ((Bool × String) × Option Dict) :=
  match pyOr ((dget args "mode").getD JVal.null) (JVal.str "") with
  | JVal.str m0 =>
    let m := pyStrip m0
    if m = "deaf" ∨ m = "name_listen" then
      some ((true, "voice.mode.set: mode=" ++ m),
        (update_voice_config [("mode", JVal.str m)] file).2)
    else
      some ((false, "voice.mode.set: invalid mode=" ++ m ++ " (allowed: deaf|name_listen)"),
        file)
  | _ => none

/-- The mode-change discipline of one try-body outcome relative to the
pre-state `s`: a raise keeps the mode; a normal pass leaves the mode
unchanged or moves it to deaf / name_listen, to conversation only with a
wake-match reason, or to llm_dummy only with an enter.llm reason. -/
def modeOutcome (s : SvcState) : Except StepOut StepOut → Prop
  | Except.error (s', _) => s'.mode = s.mode
  | Except.ok (s', rs) =>
      s'.mode = s.mode ∨ s'.mode = "deaf" ∨ s'.mode = "name_listen" ∨
      (s'.mode = "conversation" ∧ Reason.wake_match ∈ rs) ∨
      (s'.mode = "llm_dummy" ∧ Reason.enter_llm_action ∈ rs)

/-- No external_request transition in the outcome's reason list. -/
def noExt : Except StepOut StepOut → Prop
  | Except.ok (_, rs) => Reason.external_request ∉ rs
  | Except.error (_, rs) => Reason.external_request ∉ rs

-- ---------------------------------------------------------------------------
-- Dict lemmas
-- ---------------------------------------------------------------------------

theorem dget_dset (d : Dict) (k : String) (v : JVal) (k2 : String) :
    dget (dset d k v) k2 = if k2 = k then some v else dget d k2 := by
  induction d with
  | nil =>
    simp only [dset, dget]
  | cons kv rest ih =>
    obtain ⟨k1, v1⟩ := kv
    by_cases hk : k = k1
    · subst hk
      by_cases h2 : k2 = k <;> simp [dset, dget, h2]
    · by_cases h2 : k2 = k1
      · subst h2
        simp [dset, dget, hk, Ne.symm hk]
      · simp [dset, dget, hk, h2, ih]

theorem dget_dupdate (d : Dict) (p : Dict) (k : String) :
    dget (dupdate d p) k = ((plast p k).elim (dget d k) some) := by
  induction p generalizing d with
  | nil => simp [dupdate, plast]
  | cons kv rest ih =>
    obtain ⟨k1, v1⟩ := kv
    show dget (dupdate (dset d k1 v1) rest) k = _
    rw [ih]
    by_cases hk : k = k1
    · subst hk
      cases h : plast rest k with
      | some v => simp [plast, h]
      | none => simp [plast, h, dget_dset]
    · cases h : plast rest k with
      | some v => simp [plast, h]
      | none => simp [plast, h, hk, dget_dset]

theorem dget_fixScript_ne (d : Dict) (k : String) (h : k ≠ "script") :
    dget (fixScript d) k = dget d k := by
  simp [fixScript, dget_dset, h]

theorem dget_fixScript_script (d : Dict) :
    dget (fixScript d) "script" =
      some (match dget d "script" with
            | some (JVal.list l) => JVal.list l
            | _ => JVal.list []) := by
  simp [fixScript, dget_dset]


theorem dget_none_of_not_mem (d : Dict) (k : String) (h : k ∉ d.map Prod.fst) :
    dget d k = none := by
  induction d with
  | nil => rfl
  | cons kv rest ih =>
    obtain ⟨k1, v1⟩ := kv
    simp only [List.map_cons, List.mem_cons] at h
    push_neg at h
    simp [dget, h.1, ih h.2]

theorem keys_dset (d : Dict) (k : String) (v : JVal) :
    (dset d k v).map Prod.fst =
      if k ∈ d.map Prod.fst then d.map Prod.fst else d.map Prod.fst ++ [k] := by
  induction d with
  | nil => simp [dset]
  | cons kv rest ih =>
    obtain ⟨k1, v1⟩ := kv
    by_cases hk : k = k1
    · subst hk
      simp [dset]
    · simp only [dset, if_neg hk, List.map_cons]
      rw [ih]
      by_cases hm : k ∈ rest.map Prod.fst
      · simp [List.mem_cons, hk, hm]
      · simp [List.mem_cons, hk, hm]

theorem nodup_dset (d : Dict) (k : String) (v : JVal)
    (h : (d.map Prod.fst).Nodup) : ((dset d k v).map Prod.fst).Nodup := by
  rw [keys_dset]
  by_cases hm : k ∈ d.map Prod.fst
  · simpa [hm]
  · simp [hm, List.nodup_append, h]

theorem nodup_dupdate (d : Dict) (p : Dict)
    (h : (d.map Prod.fst).Nodup) : ((dupdate d p).map Prod.fst).Nodup := by
  induction p generalizing d with
  | nil => exact h
  | cons kv rest ih => exact ih _ (nodup_dset _ _ _ h)

theorem nodup_fixScript (d : Dict) (h : (d.map Prod.fst).Nodup) :
    ((fixScript d).map Prod.fst).Nodup := nodup_dset _ _ _ h

theorem nodup_default_cfg : (default_cfg.map Prod.fst).Nodup := by decide

theorem plast_eq_dget (d : Dict) (k : String) (h : (d.map Prod.fst).Nodup) :
    plast d k = dget d k := by
  induction d with
  | nil => rfl
  | cons kv rest ih =>
    obtain ⟨k1, v1⟩ := kv
    simp only [List.map_cons, List.nodup_cons] at h
    by_cases hk : k = k1
    · subst hk
      have hd : dget rest k = none := dget_none_of_not_mem _ _ h.1
      have hp : plast rest k = none := (ih h.2).trans hd
      simp [plast, dget, hp]
    · have := ih h.2
      simp only [plast, dget, if_neg hk, this]
      cases dget rest k <;> simp [hk]

theorem nodup_loaded (doc : Dict) :
    (((load_voice_config (some doc)).1).map Prod.fst).Nodup :=
  nodup_fixScript _ (nodup_dupdate _ _ nodup_default_cfg)

/-- C9 key computation: the value of a non-script key after save-then-load. -/
theorem dget_save_load (cfg : Dict) (k : String)
    (hn : (cfg.map Prod.fst).Nodup) (hv : dget cfg k = some v) (hk : k ≠ "script") :
    dget (load_voice_config (some (save_voice_config cfg))).1 k = some v := by
  have h1 : dget (save_voice_config cfg) k = some v := by
    rw [save_voice_config, dget_fixScript_ne _ _ hk, dget_dupdate,
      plast_eq_dget _ _ hn, hv]
    rfl
  have hns : ((save_voice_config cfg).map Prod.fst).Nodup :=
    nodup_fixScript _ (nodup_dupdate _ _ nodup_default_cfg)
  show dget (fixScript (dupdate default_cfg (save_voice_config cfg))) k = some v
  rw [dget_fixScript_ne _ _ hk, dget_dupdate, plast_eq_dget _ _ hns, h1]
  rfl

theorem dget_save_load_script (cfg : Dict) (l : List JVal)
    (hn : (cfg.map Prod.fst).Nodup) (hv : dget cfg "script" = some (JVal.list l)) :
    dget (load_voice_config (some (save_voice_config cfg))).1 "script" =
      some (JVal.list l) := by
  have h1 : dget (save_voice_config cfg) "script" = some (JVal.list l) := by
    rw [save_voice_config, dget_fixScript_script, dget_dupdate,
      plast_eq_dget _ _ hn, hv]
    rfl
  have hns : ((save_voice_config cfg).map Prod.fst).Nodup :=
    nodup_fixScript _ (nodup_dupdate _ _ nodup_default_cfg)
  show dget (fixScript (dupdate default_cfg (save_voice_config cfg))) "script" = _
  rw [dget_fixScript_script, dget_dupdate, plast_eq_dget _ _ hns, h1]
  rfl

theorem fixScript_script_is_list (d : Dict) (w : JVal)
    (h : dget (fixScript d) "script" = some w) : ∃ l, w = JVal.list l := by
  rw [dget_fixScript_script] at h
  injection h with h
  subst h
  cases hx : dget d "script" with
  | none => exact ⟨[], rfl⟩
  | some v => cases v <;> exact ⟨_, rfl⟩

/-- C9 (amended): patching field X with `update_voice_config` and then
`load_voice_config` yields X's patched value — provided a patch to `script`
carries a list (a non-list `script` value is coerced to `[]` on save) — and
leaves every other field, as it was observed by `load_voice_config` before
the patch, unchanged. -/
theorem c9_patch_round_trip (doc patch : Dict) :
    (∀ (X : String) (v : JVal), plast patch X = some v →
        (X = "script" → ∃ l, v = JVal.list l) →
        dget (loadAfterUpdate doc patch) X = some v) ∧
    (∀ (Y : String) (w : JVal), plast patch Y = none →
        dget (load_voice_config (some doc)).1 Y = some w →
        dget (loadAfterUpdate doc patch) Y = some w) := by
  have hn2 : ((dupdate (load_voice_config (some doc)).1 patch).map Prod.fst).Nodup :=
    nodup_dupdate _ _ (nodup_loaded doc)
  constructor
  · intro X v hX hlist
    have hcur2 : dget (dupdate (load_voice_config (some doc)).1 patch) X = some v := by
      rw [dget_dupdate, hX]
      rfl
    show dget (load_voice_config (some (save_voice_config
        (dupdate (load_voice_config (some doc)).1 patch)))).1 X = some v
    by_cases hs : X = "script"
    · subst hs
      obtain ⟨l, rfl⟩ := hlist rfl
      exact dget_save_load_script _ l hn2 hcur2
    · exact dget_save_load _ _ hn2 hcur2 hs
  · intro Y w hY hw
    have hcur2 : dget (dupdate (load_voice_config (some doc)).1 patch) Y = some w := by
      rw [dget_dupdate, hY]
      exact hw
    show dget (load_voice_config (some (save_voice_config
        (dupdate (load_voice_config (some doc)).1 patch)))).1 Y = some w
    by_cases hs : Y = "script"
    · subst hs
      obtain ⟨l, rfl⟩ := fixScript_script_is_list _ _ hw
      exact dget_save_load_script _ l hn2 hcur2
    · exact dget_save_load _ _ hn2 hcur2 hs

/-- C9 counterexample: a patch assigning the (non-list) value 5 to `script`
does NOT survive the update-then-load round trip: the loaded document holds
`[]`, not the patched value. -/
theorem c9_counterexample :
    plast [("script", JVal.num 5)] "script" = some (JVal.num 5) ∧
    dget (loadAfterUpdate [] [("script", JVal.num 5)]) "script" =
      some (JVal.list []) ∧
    JVal.list [] ≠ JVal.num 5 :=
  ⟨rfl, rfl, fun h => JVal.noConfusion h⟩

theorem c9_witness :
    dget (loadAfterUpdate [("mode", JVal.str "name_listen"), ("foo", JVal.num 7)]
      [("llm_timeout_sec", JVal.num 45)]) "llm_timeout_sec" = some (JVal.num 45) ∧
    dget (loadAfterUpdate [("mode", JVal.str "name_listen"), ("foo", JVal.num 7)]
      [("llm_timeout_sec", JVal.num 45)]) "foo" = some (JVal.num 7) :=
  ⟨(c9_patch_round_trip _ _).1 "llm_timeout_sec" _ rfl (fun h => absurd h (by decide)),
   (c9_patch_round_trip _ _).2 "foo" _ rfl rfl⟩

theorem sanitize_mode_mem (s : String) : sanitize_mode s ∈ mode_values := by
  simp only [sanitize_mode]
  by_cases h : pyStrip s = "deaf" ∨ pyStrip s = "name_listen" ∨
      pyStrip s = "conversation" ∨ pyStrip s = "llm_dummy"
  · rw [if_pos h]
    rcases h with h | h | h | h <;> rw [h] <;> decide
  · rw [if_neg h]; decide

/-- C4 (amended): whenever the mode value of the loaded document can be
observed at all (the service's `_sanitize_mode((mode or "").strip())` does not
raise, i.e. the stored value is a string or falsy), the observed mode is one
of the four enumerated values; and a stored string that does not strip to one
of the four is coerced to "deaf".  (A truthy non-string mode value instead
raises and is handled by the loop's exception fallback.) -/
theorem c4_mode_enum_on_load (file : Option Dict) :
    (∀ m, observed_mode file = some m → m ∈ mode_values) ∧
    (∀ s, (dget (load_voice_config file).1 "mode").getD (JVal.str "deaf") =
          JVal.str s →
        pyStrip s ∉ mode_values → observed_mode file = some "deaf") := by
  constructor
  · intro m hm
    unfold observed_mode sanitize_mode_v at hm
    rcases h2 : pyOr ((dget (load_voice_config file).1 "mode").getD (JVal.str "deaf"))
        (JVal.str "") with s | q | b | _ | l | d <;> rw [h2] at hm
    · injection hm with hm
      subst hm
      exact sanitize_mode_mem s
    all_goals exact Option.noConfusion hm
  · intro s hs hstrip
    have hcond : ¬(pyStrip s = "deaf" ∨ pyStrip s = "name_listen" ∨
        pyStrip s = "conversation" ∨ pyStrip s = "llm_dummy") := by
      simpa [mode_values] using hstrip
    unfold observed_mode sanitize_mode_v
    rw [hs]
    by_cases hse : s = ""
    · subst hse
      rfl
    · have hor : pyOr (JVal.str s) (JVal.str "") = JVal.str s := by
        simp [pyOr, pyTruthy, hse]
      rw [hor]
      simp [sanitize_mode, hcond]

/-- C4 counterexample: the persisted mode value " conversation" is not one of
the four enumerated values, yet after load the observed mode is
"conversation", not "deaf" — unknown values are first stripped, so the claim's
"any unknown mode value is coerced to deaf" fails as stated. -/
theorem c4_counterexample :
    " conversation" ∉ mode_values ∧
    dget (load_voice_config (some [("mode", JVal.str " conversation")])).1 "mode" =
      some (JVal.str " conversation") ∧
    observed_mode (some [("mode", JVal.str " conversation")]) = some "conversation" ∧
    "conversation" ≠ "deaf" :=
  ⟨by decide, rfl, rfl, by decide⟩

theorem c4_witness :
    observed_mode (some [("mode", JVal.str "bogus")]) = some "deaf" ∧
    "deaf" ∈ mode_values :=
  ⟨(c4_mode_enum_on_load (some [("mode", JVal.str "bogus")])).2 "bogus" rfl (by decide),
   (c4_mode_enum_on_load (some [("mode", JVal.str "bogus")])).1 "deaf"
     ((c4_mode_enum_on_load (some [("mode", JVal.str "bogus")])).2 "bogus" rfl
       (by decide))⟩

/-- C1: whatever the prefix tokens look like, match_wake_name answers false
whenever the best callsign similarity over the utterance tokens (the value
the code tests, accumulated by `callsignBest`) is below CALLSIGN_MIN_RATIO. -/
theorem c1_wake_needs_strong_callsign (text_norm callsign : String)
    (h : (callsignBest (pySplit text_norm) callsign).2 < callsign_min_ratio) :
    (match_wake_name text_norm callsign).1 = false := by
  unfold match_wake_name
  cases hts : pySplit text_norm with
  | nil => rfl
  | cons t ts =>
    rw [hts] at h
    simp only [if_pos h]

theorem c1_witness :
    (callsignBest (pySplit "bravo bravo") "alpha").2 < callsign_min_ratio ∧
    (match_wake_name "bravo bravo" "alpha").1 = false :=
  ⟨by decide, c1_wake_needs_strong_callsign "bravo bravo" "alpha" (by decide)⟩

theorem fuzzyLoop_last_below (text_tokens : List String) (n : Nat)
    (tc fc lc : ℚ) (lt : String)
    (hb : bestSim lt text_tokens < fuzzyCutoff n (n - 1) tc fc lc) :
    ∀ (ts : List String) (i hits : Nat) (ssum : ℚ),
      ts.getLast? = some lt → i + ts.length = n →
      fuzzyLoop text_tokens n tc fc lc true ts i hits ssum = none := by
  intro ts
  induction ts with
  | nil =>
    intro i hits ssum hlast _
    exact absurd hlast (by simp)
  | cons t rest ih =>
    intro i hits ssum hlast hlen
    cases rest with
    | nil =>
      have hteq : t = lt := by simpa using hlast
      subst hteq
      have hi : i = n - 1 := by
        simp only [List.length_cons, List.length_nil] at hlen
        omega
      simp only [fuzzyLoop, hi]
      rw [if_neg (not_le.mpr hb)]
      simp
    | cons t2 rest2 =>
      have hlast2 : (t2 :: rest2).getLast? = some lt := by
        rw [← hlast, List.getLast?_cons_cons]
      have hi : i ≠ n - 1 := by
        simp only [List.length_cons] at hlen
        omega
      have hlen2 : i + 1 + (t2 :: rest2).length = n := by
        simp only [List.length_cons] at hlen ⊢
        omega
      by_cases hc : bestSim t text_tokens ≥ fuzzyCutoff n i tc fc lc
      · have hr := ih (i + 1) (hits + 1) (ssum + bestSim t text_tokens) hlast2 hlen2
        simp only [fuzzyLoop] at hr ⊢
        rw [if_pos hc]
        exact hr
      · have hr := ih (i + 1) hits ssum hlast2 hlen2
        simp only [fuzzyLoop] at hr ⊢
        rw [if_neg hc, if_neg (by simp [hi])]
        exact hr

/-- C2: with require_last_token (the default), fuzzy_match returns
(false, 0.0) whenever the best similarity of the target's last token over
all text tokens is below that token's position cutoff (the first-token
cutoff when the target has a single token, the last-token cutoff otherwise),
regardless of how well the earlier target tokens match. -/
theorem c2_last_token_mandatory (text_norm target : String)
    (tc fc lc : ℚ) (mh : Nat)
    (hne : pySplit target ≠ [])
    (h : bestSim ((pySplit target).getLast hne) (pySplit text_norm) <
      fuzzyCutoff (pySplit target).length ((pySplit target).length - 1) tc fc lc) :
    fuzzy_match text_norm target tc fc lc mh true = (false, 0) := by
  unfold fuzzy_match
  by_cases hte : (pySplit text_norm).isEmpty
  · rw [if_pos (Or.inl hte)]
  · rw [if_neg (by simp [hte, List.isEmpty_iff, hne])]
    rw [fuzzyLoop_last_below (pySplit text_norm) (pySplit target).length tc fc lc
      ((pySplit target).getLast hne) h (pySplit target) 0 0 0
      (List.getLast?_eq_getLast _ hne) (by simp)]

theorem c2_witness :
    fuzzy_match "zzz" "alpha" (80/100) (85/100) (90/100) 3 true = (false, 0) :=
  c2_last_token_mandatory "zzz" "alpha" (80/100) (85/100) (90/100) 3
    (by decide) (by decide)


-- ---------------------------------------------------------------------------
-- C10: normalize_text lemmas
-- ---------------------------------------------------------------------------

theorem splitWS_nil_eq : splitWS [] = [] := rfl

theorem splitWS_one (c : Char) : splitWS [c] = if wsChar c then [] else [[c]] := rfl

theorem splitWS_two (c d : Char) (cs : List Char) :
    splitWS (c :: d :: cs) =
      if wsChar c then splitWS (d :: cs)
      else if wsChar d then [c] :: splitWS (d :: cs)
      else (c :: (splitWS (d :: cs)).headD []) :: (splitWS (d :: cs)).tail := rfl

theorem subBad_nil_eq : subBad [] = [] := rfl

theorem subBad_one (c : Char) : subBad [c] = if goodChar c then [c] else [' '] := rfl

theorem subBad_two (c d : Char) (cs : List Char) :
    subBad (c :: d :: cs) =
      if goodChar c then c :: subBad (d :: cs)
      else if goodChar d then ' ' :: subBad (d :: cs)
      else subBad (d :: cs) := rfl

theorem collapseWS_nil_eq : collapseWS [] = [] := rfl

theorem collapseWS_one (c : Char) :
    collapseWS [c] = if ¬ wsChar c then [c] else [' '] := rfl

theorem collapseWS_two (c d : Char) (cs : List Char) :
    collapseWS (c :: d :: cs) =
      if ¬ wsChar c then c :: collapseWS (d :: cs)
      else if ¬ wsChar d then ' ' :: collapseWS (d :: cs)
      else collapseWS (d :: cs) := rfl

theorem alnum_good (c : Char) (h : alnumChar c = true) : goodChar c = true := by
  simp only [alnumChar, decide_eq_true_eq] at h
  simp only [goodChar, decide_eq_true_eq]
  omega

theorem alnum_not_ws (c : Char) (h : alnumChar c = true) : wsChar c = false := by
  simp only [alnumChar, decide_eq_true_eq] at h
  simp only [wsChar, decide_eq_false_iff_not]
  omega

theorem good_not_ws_alnum (c : Char) (hg : goodChar c = true) (hw : wsChar c = false) :
    alnumChar c = true := by
  simp only [goodChar, decide_eq_true_eq] at hg
  simp only [wsChar, decide_eq_false_iff_not] at hw
  simp only [alnumChar, decide_eq_true_eq]
  omega

theorem space_good : goodChar ' ' = true := by decide

theorem good_of_subBad (l : List Char) : ∀ c ∈ subBad l, goodChar c = true := by
  induction l with
  | nil => intro c hc; exact absurd hc (by simp [subBad_nil_eq])
  | cons a as ih =>
    intro c hc
    cases as with
    | nil =>
      rw [subBad_one] at hc
      by_cases ha : goodChar a
      · rw [if_pos ha] at hc
        rw [List.mem_singleton.mp hc]; exact ha
      · rw [if_neg ha] at hc
        rw [List.mem_singleton.mp hc]; exact space_good
    | cons b bs =>
      rw [subBad_two] at hc
      by_cases ha : goodChar a
      · rw [if_pos ha] at hc
        rcases List.mem_cons.mp hc with rfl | hc
        · exact ha
        · exact ih _ hc
      · rw [if_neg ha] at hc
        by_cases hb : goodChar b
        · rw [if_pos hb] at hc
          rcases List.mem_cons.mp hc with rfl | hc
          · exact space_good
          · exact ih _ hc
        · rw [if_neg hb] at hc
          exact ih _ hc

theorem good_of_collapseWS (l : List Char) (h : ∀ c ∈ l, goodChar c = true) :
    ∀ c ∈ collapseWS l, goodChar c = true := by
  induction l with
  | nil => intro c hc; exact absurd hc (by simp [collapseWS_nil_eq])
  | cons a as ih =>
    have has : ∀ c ∈ as, goodChar c = true := fun c hc => h c (List.mem_cons_of_mem _ hc)
    intro c hc
    cases as with
    | nil =>
      rw [collapseWS_one] at hc
      by_cases ha : wsChar a
      · rw [if_neg (by simp [ha])] at hc
        rw [List.mem_singleton.mp hc]; exact space_good
      · rw [if_pos (by simp [ha])] at hc
        rw [List.mem_singleton.mp hc]; exact h a (List.mem_cons_self _ _)
    | cons b bs =>
      rw [collapseWS_two] at hc
      by_cases ha : wsChar a
      · rw [if_neg (by simp [ha])] at hc
        by_cases hb : wsChar b
        · rw [if_neg (by simp [hb])] at hc
          exact ih has _ hc
        · rw [if_pos (by simp [hb])] at hc
          rcases List.mem_cons.mp hc with rfl | hc
          · exact space_good
          · exact ih has _ hc
      · rw [if_pos (by simp [ha])] at hc
        rcases List.mem_cons.mp hc with rfl | hc
        · exact h _ (List.mem_cons_self _ _)
        · exact ih has _ hc

theorem mem_of_stripWS (l : List Char) (c : Char) (h : c ∈ stripWS l) : c ∈ l := by
  unfold stripWS at h
  rw [List.mem_reverse] at h
  have h2 := List.dropWhile_subset _ h
  rw [List.mem_reverse] at h2
  exact List.dropWhile_subset _ h2

theorem splitWS_cons_head (d : Char) (rest : List Char) (hd : wsChar d = false) :
    ∃ t0 r0, splitWS (d :: rest) = (d :: t0) :: r0 := by
  cases rest with
  | nil =>
    refine ⟨[], [], ?_⟩
    rw [splitWS_one, if_neg (by simp [hd])]
  | cons e rest2 =>
    by_cases he : wsChar e
    · refine ⟨[], splitWS (e :: rest2), ?_⟩
      rw [splitWS_two, if_neg (by simp [hd]), if_pos he]
    · refine ⟨(splitWS (e :: rest2)).headD [], (splitWS (e :: rest2)).tail, ?_⟩
      rw [splitWS_two, if_neg (by simp [hd]), if_neg he]

theorem splitWS_tokens (l : List Char) :
    ∀ t ∈ splitWS l, t ≠ [] ∧ ∀ c ∈ t, wsChar c = false ∧ c ∈ l := by
  induction l with
  | nil => intro t ht; exact absurd ht (by simp [splitWS_nil_eq])
  | cons a as ih =>
    intro t ht
    by_cases ha : wsChar a
    · cases as with
      | nil =>
        rw [splitWS_one, if_pos ha] at ht
        exact absurd ht (by simp)
      | cons b bs =>
        rw [splitWS_two, if_pos ha] at ht
        obtain ⟨h1, h2⟩ := ih t ht
        exact ⟨h1, fun c hc => ⟨(h2 c hc).1, List.mem_cons_of_mem _ (h2 c hc).2⟩⟩
    · have ha2 : wsChar a = false := by simpa using ha
      cases as with
      | nil =>
        rw [splitWS_one, if_neg (by simp [ha2])] at ht
        simp only [List.mem_singleton] at ht
        subst ht
        refine ⟨by simp, ?_⟩
        intro c hc
        simp only [List.mem_singleton] at hc
        subst hc
        exact ⟨ha2, List.mem_cons_self _ _⟩
      | cons b bs =>
        by_cases hb : wsChar b
        · rw [splitWS_two, if_neg (by simp [ha2]), if_pos hb] at ht
          rcases List.mem_cons.mp ht with rfl | ht
          · refine ⟨by simp, ?_⟩
            intro c hc
            rcases List.mem_cons.mp hc with rfl | hc
            · exact ⟨ha2, List.mem_cons_self _ _⟩
            · exact absurd hc (by simp)
          · obtain ⟨h1, h2⟩ := ih t ht
            exact ⟨h1, fun c hc => ⟨(h2 c hc).1, List.mem_cons_of_mem _ (h2 c hc).2⟩⟩
        · have hb2 : wsChar b = false := by simpa using hb
          obtain ⟨t0, r0, hr⟩ := splitWS_cons_head b bs hb2
          rw [splitWS_two, if_neg (by simp [ha2]), if_neg hb, hr] at ht
          simp only [List.headD_cons, List.tail_cons] at ht
          have hbt : (b :: t0) ∈ splitWS (b :: bs) := by
            rw [hr]; exact List.mem_cons_self _ _
          obtain ⟨_, hp⟩ := ih _ hbt
          rcases List.mem_cons.mp ht with rfl | ht
          · refine ⟨by simp, ?_⟩
            intro c hc
            rcases List.mem_cons.mp hc with rfl | hc
            · exact ⟨ha2, List.mem_cons_self _ _⟩
            · exact ⟨(hp c hc).1, List.mem_cons_of_mem _ (hp c hc).2⟩
          · have hm : t ∈ splitWS (b :: bs) := by
              rw [hr]; exact List.mem_cons_of_mem _ ht
            obtain ⟨h1, h2⟩ := ih t hm
            exact ⟨h1, fun c hc => ⟨(h2 c hc).1, List.mem_cons_of_mem _ (h2 c hc).2⟩⟩

theorem canonTok_idem (t : List Char) : canonTok (canonTok t) = canonTok t := by
  by_cases h1 : t = "twins".data
  · have e : canonTok t = "twin".data := by
      unfold canonTok; rw [if_pos h1]
    rw [e]; decide
  by_cases h2 : t = "skull".data
  · have e : canonTok t = "scout".data := by
      unfold canonTok; rw [if_neg h1, if_pos h2]
    rw [e]; decide
  by_cases h3 : t = "alfa".data
  · have e : canonTok t = "alpha".data := by
      unfold canonTok; rw [if_neg h1, if_neg h2, if_pos h3]
    rw [e]; decide
  by_cases h4 : t = "bravo".data
  · have e : canonTok t = "bravo".data := by
      unfold canonTok; rw [if_neg h1, if_neg h2, if_neg h3, if_pos h4]
    rw [e]; decide
  by_cases h5 : t = "alpha".data
  · have e : canonTok t = "alpha".data := by
      unfold canonTok; rw [if_neg h1, if_neg h2, if_neg h3, if_neg h4, if_pos h5]
    rw [e]; decide
  · have e : canonTok t = t := by
      unfold canonTok; rw [if_neg h1, if_neg h2, if_neg h3, if_neg h4, if_neg h5]
    rw [e]; exact e

theorem canonTok_alnum (t : List Char) (h1 : t ≠ []) (h2 : ∀ c ∈ t, alnumChar c = true) :
    canonTok t ≠ [] ∧ ∀ c ∈ canonTok t, alnumChar c = true := by
  unfold canonTok
  split_ifs
  all_goals first
    | exact ⟨by decide, by decide⟩
    | exact ⟨h1, h2⟩

theorem fix_char (c : Char) (h : alnumChar c = true ∨ c = ' ') :
    dashUnd (pyLowerChar c) = c := by
  have hP : ¬ (65 ≤ c.toNat ∧ c.toNat ≤ 90) := by
    rcases h with h | rfl
    · simp only [alnumChar, decide_eq_true_eq] at h
      omega
    · decide
  have hlow : pyLowerChar c = c := by
    unfold pyLowerChar
    rw [if_neg hP]
  rw [hlow]
  unfold dashUnd
  rw [if_neg]
  rintro (rfl | rfl)
  · rcases h with h | h <;> revert h <;> decide
  · rcases h with h | h <;> revert h <;> decide

theorem mem_joinToks (toks : List (List Char)) (c : Char) (h : c ∈ joinToks toks) :
    (∃ t ∈ toks, c ∈ t) ∨ c = ' ' := by
  induction toks with
  | nil => exact absurd h (by simp [joinToks])
  | cons t ts ih =>
    cases ts with
    | nil => exact Or.inl ⟨t, List.mem_cons_self _ _, h⟩
    | cons t2 ts2 =>
      have h2 : c ∈ t ++ ' ' :: joinToks (t2 :: ts2) := h
      rw [List.mem_append] at h2
      rcases h2 with h2 | h2
      · exact Or.inl ⟨t, List.mem_cons_self _ _, h2⟩
      · rcases List.mem_cons.mp h2 with rfl | h2
        · exact Or.inr rfl
        · rcases ih h2 with ⟨u, hu, hcu⟩ | hsp
          · exact Or.inl ⟨u, List.mem_cons_of_mem _ hu, hcu⟩
          · exact Or.inr hsp

theorem map_id_of_fix {f : Char → Char} (l : List Char) (h : ∀ c ∈ l, f c = c) :
    l.map f = l := by
  induction l with
  | nil => rfl
  | cons a as ih =>
    rw [List.map_cons, h a (List.mem_cons_self _ _),
      ih (fun c hc => h c (List.mem_cons_of_mem _ hc))]

theorem subBad_id (l : List Char) (h : ∀ c ∈ l, goodChar c = true) : subBad l = l := by
  induction l with
  | nil => rfl
  | cons a as ih =>
    have ha := h a (List.mem_cons_self _ _)
    have has : ∀ c ∈ as, goodChar c = true := fun c hc => h c (List.mem_cons_of_mem _ hc)
    cases as with
    | nil => rw [subBad_one, if_pos ha]
    | cons b bs => rw [subBad_two, if_pos ha, ih has]

theorem collapseWS_append_left (t r : List Char) (h : ∀ c ∈ t, wsChar c = false) :
    collapseWS (t ++ r) = t ++ collapseWS r := by
  induction t with
  | nil => rfl
  | cons a t2 ih =>
    have ha : wsChar a = false := h a (List.mem_cons_self _ _)
    have h2 : ∀ c ∈ t2, wsChar c = false := fun c hc => h c (List.mem_cons_of_mem _ hc)
    cases hx : t2 ++ r with
    | nil =>
      obtain ⟨h1, hr⟩ := List.append_eq_nil.mp hx
      subst h1
      subst hr
      rw [List.cons_append, List.append_nil, collapseWS_one,
        if_pos (by simp [ha])]
      rfl
    | cons d cs =>
      rw [List.cons_append, hx, collapseWS_two, if_pos (by simp [ha]), ← hx,
        ih h2]
      rfl

theorem joinToks_cons_shape (t2 : List Char) (ts : List (List Char)) (c2 : Char)
    (t2' : List Char) (h : t2 = c2 :: t2') :
    ∃ tail, joinToks (t2 :: ts) = c2 :: tail := by
  subst h
  cases ts with
  | nil => exact ⟨t2', rfl⟩
  | cons u us => exact ⟨t2' ++ ' ' :: joinToks (u :: us), rfl⟩

theorem collapseWS_join (toks : List (List Char))
    (h : ∀ t ∈ toks, t ≠ [] ∧ ∀ c ∈ t, wsChar c = false) :
    collapseWS (joinToks toks) = joinToks toks := by
  induction toks with
  | nil => rfl
  | cons t ts ih =>
    obtain ⟨ht, hwst⟩ := h t (List.mem_cons_self _ _)
    have hts : ∀ u ∈ ts, u ≠ [] ∧ ∀ c ∈ u, wsChar c = false :=
      fun u hu => h u (List.mem_cons_of_mem _ hu)
    cases ts with
    | nil =>
      have := collapseWS_append_left t [] hwst
      simpa [collapseWS_nil_eq] using this
    | cons t2 ts2 =>
      obtain ⟨h2ne, h2ws⟩ := hts t2 (List.mem_cons_self _ _)
      obtain ⟨c2, t2', hsh⟩ : ∃ c2 t2', t2 = c2 :: t2' := by
        cases t2 with
        | nil => exact absurd rfl h2ne
        | cons x xs => exact ⟨x, xs, rfl⟩
      obtain ⟨tail, hj⟩ := joinToks_cons_shape t2 ts2 c2 t2' hsh
      have hc2 : wsChar c2 = false := h2ws c2 (by rw [hsh]; exact List.mem_cons_self _ _)
      show collapseWS (t ++ ' ' :: joinToks (t2 :: ts2)) = t ++ ' ' :: joinToks (t2 :: ts2)
      rw [collapseWS_append_left t _ hwst]
      congr 1
      rw [hj, collapseWS_two, if_neg (by decide), if_pos (by simp [hc2]), ← hj,
        ih hts]

theorem dropWhile_id_of_head (l : List Char)
    (hh : ∀ c, l.head? = some c → wsChar c = false) :
    l.dropWhile wsChar = l := by
  cases l with
  | nil => rfl
  | cons a as => exact List.dropWhile_cons_of_neg (by simp [hh a rfl])

theorem stripWS_id_of (l : List Char)
    (hh : ∀ c, l.head? = some c → wsChar c = false)
    (hl : ∀ c, l.getLast? = some c → wsChar c = false) :
    stripWS l = l := by
  unfold stripWS
  rw [dropWhile_id_of_head l hh]
  rw [dropWhile_id_of_head l.reverse
    (by intro c hc; rw [List.head?_reverse] at hc; exact hl c hc)]
  exact List.reverse_reverse l

theorem joinToks_head_eq (t' : List Char) (c : Char) (ts : List (List Char)) :
    (joinToks ((c :: t') :: ts)).head? = some c := by
  cases ts with
  | nil => rfl
  | cons u us => rfl

theorem joinToks_ne_nil (t : List Char) (ts : List (List Char)) (h : t ≠ []) :
    joinToks (t :: ts) ≠ [] := by
  cases ts with
  | nil => exact h
  | cons u us =>
    cases t with
    | nil => exact absurd rfl h
    | cons c t' => simp [joinToks]

theorem joinToks_getLast_mem (toks : List (List Char)) (c : Char)
    (hne : ∀ t ∈ toks, t ≠ [])
    (h : (joinToks toks).getLast? = some c) :
    ∃ t ∈ toks, c ∈ t := by
  induction toks with
  | nil => exact absurd h (by simp [joinToks])
  | cons t ts ih =>
    cases ts with
    | nil => exact ⟨t, List.mem_cons_self _ _, List.mem_of_getLast?_eq_some h⟩
    | cons t2 ts2 =>
      have hj : joinToks (t :: t2 :: ts2) = t ++ ' ' :: joinToks (t2 :: ts2) := rfl
      rw [hj, List.getLast?_append] at h
      have hJne : joinToks (t2 :: ts2) ≠ [] :=
        joinToks_ne_nil t2 ts2 (hne t2 (List.mem_cons_of_mem _ (List.mem_cons_self _ _)))
      obtain ⟨j, J2, hJ⟩ : ∃ j J2, joinToks (t2 :: ts2) = j :: J2 := by
        cases hJ2 : joinToks (t2 :: ts2) with
        | nil => exact absurd hJ2 hJne
        | cons j J2 => exact ⟨j, J2, rfl⟩
      rw [hJ, List.getLast?_cons_cons,
        List.getLast?_eq_getLast (j :: J2) (by simp)] at h
      have hsome : (j :: J2).getLast? = some c := by
        rw [List.getLast?_eq_getLast (j :: J2) (by simp)]
        simpa using h
      obtain ⟨u, hu, hcu⟩ := ih (fun u hu => hne u (List.mem_cons_of_mem _ hu))
        (by rw [hJ]; exact hsome)
      exact ⟨u, List.mem_cons_of_mem _ hu, hcu⟩

theorem alnumToks_wsfree (toks : List (List Char)) (h : alnumToks toks) :
    ∀ t ∈ toks, t ≠ [] ∧ ∀ c ∈ t, wsChar c = false :=
  fun t ht => ⟨(h t ht).1, fun c hc => alnum_not_ws c ((h t ht).2 c hc)⟩

theorem stripWS_join (toks : List (List Char)) (h : alnumToks toks) :
    stripWS (joinToks toks) = joinToks toks := by
  cases toks with
  | nil => rfl
  | cons t ts =>
    obtain ⟨htne, hta⟩ := h t (List.mem_cons_self _ _)
    obtain ⟨c0, t', hsh⟩ : ∃ c0 t', t = c0 :: t' := by
      cases t with
      | nil => exact absurd rfl htne
      | cons x xs => exact ⟨x, xs, rfl⟩
    apply stripWS_id_of
    · intro c hc
      subst hsh
      rw [joinToks_head_eq] at hc
      injection hc with hc
      subst hc
      exact alnum_not_ws _ (hta _ (List.mem_cons_self _ _))
    · intro c hc
      obtain ⟨u, hu, hcu⟩ := joinToks_getLast_mem (t :: ts) c
        (fun u hu => (h u hu).1) hc
      exact alnum_not_ws _ ((h u hu).2 c hcu)

theorem splitWS_wsfree (t : List Char) (hne : t ≠ [])
    (h : ∀ c ∈ t, wsChar c = false) : splitWS t = [t] := by
  induction t with
  | nil => exact absurd rfl hne
  | cons a t2 ih =>
    have ha := h a (List.mem_cons_self _ _)
    cases t2 with
    | nil => rw [splitWS_one, if_neg (by simp [ha])]
    | cons b bs =>
      have hb := h b (List.mem_cons_of_mem _ (List.mem_cons_self _ _))
      rw [splitWS_two, if_neg (by simp [ha]), if_neg (by simp [hb]),
        ih (by simp) (fun c hc => h c (List.mem_cons_of_mem _ hc))]
      rfl

theorem splitWS_tok_append (t r : List Char) (hne : t ≠ [])
    (h : ∀ c ∈ t, wsChar c = false) :
    splitWS (t ++ ' ' :: r) = t :: splitWS r := by
  induction t with
  | nil => exact absurd rfl hne
  | cons a t2 ih =>
    have ha := h a (List.mem_cons_self _ _)
    cases t2 with
    | nil =>
      show splitWS (a :: ' ' :: r) = [a] :: splitWS r
      rw [splitWS_two, if_neg (by simp [ha]), if_pos (by decide)]
      rfl
    | cons b bs =>
      have hb := h b (List.mem_cons_of_mem _ (List.mem_cons_self _ _))
      have ih2 := ih (by simp) (fun c hc => h c (List.mem_cons_of_mem _ hc))
      show splitWS (a :: ((b :: bs) ++ ' ' :: r)) = (a :: b :: bs) :: splitWS r
      simp only [List.cons_append] at ih2 ⊢
      rw [splitWS_two, if_neg (by simp [ha]), if_neg (by simp [hb]), ih2]
      rfl

theorem splitWS_join (toks : List (List Char))
    (h : ∀ t ∈ toks, t ≠ [] ∧ ∀ c ∈ t, wsChar c = false) :
    splitWS (joinToks toks) = toks := by
  induction toks with
  | nil => rfl
  | cons t ts ih =>
    obtain ⟨hne, hws⟩ := h t (List.mem_cons_self _ _)
    cases ts with
    | nil => exact splitWS_wsfree t hne hws
    | cons t2 ts2 =>
      show splitWS (t ++ ' ' :: joinToks (t2 :: ts2)) = t :: t2 :: ts2
      rw [splitWS_tok_append t _ hne hws,
        ih (fun u hu => h u (List.mem_cons_of_mem _ hu))]

theorem good_join (toks : List (List Char)) (h : alnumToks toks) :
    ∀ c ∈ joinToks toks, goodChar c = true := by
  intro c hc
  rcases mem_joinToks toks c hc with ⟨t, ht, hct⟩ | rfl
  · exact alnum_good _ ((h t ht).2 c hct)
  · exact space_good

theorem map_fix_join (toks : List (List Char)) (h : alnumToks toks) :
    (joinToks toks).map (fun c => dashUnd (pyLowerChar c)) = joinToks toks :=
  map_id_of_fix _ (fun c hc => by
    rcases mem_joinToks toks c hc with ⟨t, ht, hct⟩ | rfl
    · exact fix_char c (Or.inl ((h t ht).2 c hct))
    · exact fix_char _ (Or.inr rfl))

theorem normalize_eq_normToks (s : String) :
    normalize_text s = String.mk (joinToks (normToks s)) := by
  simp only [normalize_text, normToks]
  by_cases hemp : (stripWS (collapseWS (subBad
      (s.data.map (fun c => dashUnd (pyLowerChar c)))))).isEmpty
  · rw [if_pos hemp, List.isEmpty_iff.mp hemp]
    rfl
  · rw [if_neg hemp]

theorem alnumToks_normToks (s : String) : alnumToks (normToks s) := by
  intro t ht
  unfold normToks at ht
  rw [List.mem_map] at ht
  obtain ⟨u, hu, rfl⟩ := ht
  obtain ⟨hne, hch⟩ := splitWS_tokens _ u hu
  apply canonTok_alnum u hne
  intro c hc
  obtain ⟨hws, hmem⟩ := hch c hc
  have hg : goodChar c = true :=
    good_of_collapseWS _ (good_of_subBad _) c (mem_of_stripWS _ c hmem)
  exact good_not_ws_alnum c hg hws

theorem normToks_canon_fixed (s : String) :
    (normToks s).map canonTok = normToks s := by
  unfold normToks
  rw [List.map_map]
  apply List.map_congr_left
  intro t _
  simp only [Function.comp_apply]
  exact canonTok_idem t

theorem normToks_join (toks : List (List Char)) (h : alnumToks toks) :
    normToks (String.mk (joinToks toks)) = toks.map canonTok := by
  unfold normToks
  have hd : (String.mk (joinToks toks)).data = joinToks toks := rfl
  rw [hd, map_fix_join toks h, subBad_id _ (good_join toks h),
    collapseWS_join _ (alnumToks_wsfree toks h), stripWS_join toks h,
    splitWS_join _ (alnumToks_wsfree toks h)]

/-- C10: normalize_text is idempotent, and its output is a single-space
join of non-empty lowercase-alphanumeric tokens (hence no leading or
trailing whitespace and no double spaces). -/
theorem c10_normalize_idempotent_and_shape (s : String) :
    normalize_text (normalize_text s) = normalize_text s ∧
    ∃ toks : List (List Char), alnumToks toks ∧
      (normalize_text s).data = joinToks toks := by
  have hA : alnumToks (normToks s) := alnumToks_normToks s
  constructor
  · rw [normalize_eq_normToks s, normalize_eq_normToks (String.mk (joinToks (normToks s))),
      normToks_join (normToks s) hA, normToks_canon_fixed s]
  · exact ⟨normToks s, hA, by rw [normalize_eq_normToks s]⟩

-- ---------------------------------------------------------------------------
-- C6, C7, C8: the LLM exchange client
-- ---------------------------------------------------------------------------

theorem dget_dremove_self (d : Dict) (k : String) : dget (dremove d k) k = none := by
  induction d with
  | nil => rfl
  | cons kv rest ih =>
    obtain ⟨k1, v1⟩ := kv
    by_cases hk : k1 = k
    · simpa [dremove, List.filter_cons, hk] using ih
    · have h2 : dremove ((k1, v1) :: rest) k = (k1, v1) :: dremove rest k := by
        simp [dremove, List.filter_cons, hk]
      rw [h2]
      show (if k = k1 then some v1 else dget (dremove rest k) k) = none
      rw [if_neg (fun h => hk h.symm)]
      exact ih

theorem llm_finish_requests (sid ts : String) (st : Dict)
    (r : Bool × String × Option Dict × Nat × String) (reqs : List PayloadM) :
    (llm_finish sid ts st r reqs).requests = reqs := by
  obtain ⟨ok, detail, jopt, code, body⟩ := r
  cases ok
  · rfl
  · cases jopt with
    | none => rfl
    | some jd =>
      simp only [llm_finish]
      cases hE : extract_output_text jd <;> simp [hE]

theorem llm_finish_fail (sid ts : String) (st : Dict)
    (r : Bool × String × Option Dict × Nat × String) (reqs : List PayloadM)
    (h : r.1 = false) :
    llm_finish sid ts st r reqs = ⟨some (false, r.2.1), st, reqs, none⟩ := by
  unfold llm_finish
  rw [if_pos (by simp [h])]

theorem llm_finish_true (sid ts : String) (st : Dict)
    (r : Bool × String × Option Dict × Nat × String) (reqs : List PayloadM)
    (t : String) (h : (llm_finish sid ts st r reqs).res = some (true, t)) :
    t ≠ "" := by
  obtain ⟨ok, detail, jopt, code, body⟩ := r
  cases ok
  · simp [llm_finish] at h
  · cases jopt with
    | none => simp [llm_finish] at h
    | some jd =>
      simp only [llm_finish] at h
      cases hE : extract_output_text jd with
      | none => rw [hE] at h; simp at h
      | some txt0 =>
        rw [hE] at h
        simp at h
        by_cases h0 : txt0 = ""
        · rw [h0] at h
          simp at h
          rw [← h]
          decide
        · rw [if_neg h0] at h
          rw [← h]
          exact h0

theorem llm_finish_stores_id (sid ts : String) (st : Dict)
    (r : Bool × String × Option Dict × Nat × String) (reqs : List PayloadM)
    (jd : Dict) (t : String)
    (hok : (llm_finish sid ts st r reqs).res = some (true, t))
    (hjson : (llm_finish sid ts st r reqs).respJson = some jd)
    (hid : llmField jd "id" "" ≠ "")
    (hsafe : id_is_safe (llmField jd "id" "") = true) :
    dget (llm_finish sid ts st r reqs).state "previous_response_id" =
      some (JVal.str (llmField jd "id" "")) := by
  obtain ⟨ok, detail, jopt, code, body⟩ := r
  cases ok
  · simp [llm_finish] at hok
  · cases jopt with
    | none => simp [llm_finish] at hok
    | some jd2 =>
      simp only [llm_finish] at hok hjson ⊢
      cases hE : extract_output_text jd2 with
      | none => rw [hE] at hok; simp at hok
      | some txt0 =>
        rw [hE] at hok hjson
        simp at hjson
        subst hjson
        simp only [llm_finish, hE, not_true]
        rw [if_neg (by simp)]
        show dget (dset _ "updated_at" (JVal.str ts)) "previous_response_id" = _
        rw [dget_dset, if_neg (by decide)]
        by_cases hs : sid = ""
        · rw [if_neg (by simp [hs]), if_pos ⟨hid, hsafe⟩, dget_dset, if_pos rfl]
        · rw [if_pos hs, dget_dset, if_neg (by decide),
            if_pos ⟨hid, hsafe⟩, dget_dset, if_pos rfl]

theorem llm_exchange_cases (u : String) (cfg : Dict) (key : String) (st0 : Dict)
    (ts : String) (http : PayloadM → HttpOutcome) :
    (llm_exchange u cfg key st0 ts http = ⟨some (true, ""), st0, [], none⟩ ∧
      pyStrip u = "") ∨
    ((∀ t, (llm_exchange u cfg key st0 ts http).res ≠ some (true, t)) ∧
      (llm_exchange u cfg key st0 ts http).respJson = none) ∨
    ∃ sid st r reqs,
      llm_exchange u cfg key st0 ts http = llm_finish sid ts st r reqs := by
  simp only [llm_exchange]
  by_cases hu : pyStrip u = ""
  · rw [if_pos hu]
    exact Or.inl ⟨rfl, hu⟩
  · rw [if_neg hu]
    split <;> first
      | exact Or.inr (Or.inl ⟨fun t h => by simp at h, rfl⟩)
      | (split <;> first
          | exact Or.inr (Or.inl ⟨fun t h => by simp at h, rfl⟩)
          | (split <;> first
              | exact Or.inr (Or.inl ⟨fun t h => by simp at h, rfl⟩)
              | (split <;> first
                  | exact Or.inr (Or.inl ⟨fun t h => by simp at h, rfl⟩)
                  | (split <;> first
                      | exact Or.inr (Or.inl ⟨fun t h => by simp at h, rfl⟩)
                      | (split <;> first
                          | exact Or.inr (Or.inl ⟨fun t h => by simp at h, rfl⟩)
                          | (split <;> first
                              | exact Or.inr (Or.inl ⟨fun t h => by simp at h, rfl⟩)
                              | (split <;> split <;> split <;>
                                  exact Or.inr (Or.inr ⟨_, _, _, _, rfl⟩))))))))

/-- C7 (amended): for every input whose trimmed text is non-empty, a
successful llm_exchange never returns an empty reply — an empty extraction
is replaced by the fixed fallback sentence.  (As stated over every input,
the claim fails at empty input, where llm_exchange returns ok=true with an
empty reply without contacting the service.) -/
theorem c7_success_reply_nonempty (u : String) (cfg : Dict) (key : String)
    (st0 : Dict) (ts : String) (http : PayloadM → HttpOutcome) (t : String)
    (hne : pyStrip u ≠ "")
    (hok : (llm_exchange u cfg key st0 ts http).res = some (true, t)) :
    t ≠ "" := by
  rcases llm_exchange_cases u cfg key st0 ts http with
    ⟨_, hu⟩ | ⟨hno, _⟩ | ⟨sid, st, r, reqs, heq⟩
  · exact absurd hu hne
  · exact absurd hok (hno t)
  · rw [heq] at hok
    exact llm_finish_true _ _ _ _ _ _ hok

/-- C7 counterexample: on empty input llm_exchange returns ok=true with an
empty reply. -/
theorem c7_counterexample :
    (llm_exchange "" [] "" [] "t" (fun _ => HttpOutcome.exc "down")).res =
      some (true, "") ∧ ¬ (("" : String) ≠ "") :=
  ⟨rfl, fun h => h rfl⟩

theorem c7_witness :
    (llm_exchange "hi"
      [("llm", JVal.dict [("model", JVal.str "m"), ("api_key_file", JVal.str "f")])]
      "k" [] "t"
      (fun _ => HttpOutcome.resp 200 "" (some [("id", JVal.str "xyz"),
        ("output", JVal.list [JVal.dict [("content", JVal.list [JVal.dict
          [("type", JVal.str "output_text"),
           ("text", JVal.str "ok.")]])]])]))).res = some (true, "ok.") ∧
    ("ok." : String) ≠ "" :=
  ⟨rfl, c7_success_reply_nonempty "hi"
    [("llm", JVal.dict [("model", JVal.str "m"), ("api_key_file", JVal.str "f")])]
    "k" [] "t"
    (fun _ => HttpOutcome.resp 200 "" (some [("id", JVal.str "xyz"),
        ("output", JVal.list [JVal.dict [("content", JVal.list [JVal.dict
          [("type", JVal.str "output_text"),
           ("text", JVal.str "ok.")]])]])]))
    "ok." (by decide) rfl⟩

/-- C8 (amended): after every successful exchange whose response id strips
to a non-empty string matching the safe pattern `[A-Za-z0-9_-]+`, the stored
previous_response_id equals that stripped id.  (As stated the claim fails
when the response carries no usable id: the stored id is then left as it
was — see the counterexample.) -/
theorem c8_success_stores_safe_id (u : String) (cfg : Dict) (key : String)
    (st0 : Dict) (ts : String) (http : PayloadM → HttpOutcome) (jd : Dict)
    (t : String)
    (hok : (llm_exchange u cfg key st0 ts http).res = some (true, t))
    (hjson : (llm_exchange u cfg key st0 ts http).respJson = some jd)
    (hid : llmField jd "id" "" ≠ "")
    (hsafe : id_is_safe (llmField jd "id" "") = true) :
    dget (llm_exchange u cfg key st0 ts http).state "previous_response_id" =
      some (JVal.str (llmField jd "id" "")) := by
  rcases llm_exchange_cases u cfg key st0 ts http with
    ⟨heq, _⟩ | ⟨_, hnone⟩ | ⟨sid, st, r, reqs, heq⟩
  · rw [heq] at hjson
    simp at hjson
  · rw [hnone] at hjson
    simp at hjson
  · rw [heq] at hok hjson ⊢
    exact llm_finish_stores_id _ _ _ _ _ _ _ hok hjson hid hsafe

/-- C8 counterexample: a successful exchange whose response id ("bad id",
holding a space) fails the safe-character check leaves the previously stored
id in place — the stored id does not equal the id returned by the
exchange. -/
theorem c8_counterexample :
    (llm_exchange "hi"
      [("llm", JVal.dict [("model", JVal.str "m"), ("api_key_file", JVal.str "f")])]
      "k" [("previous_response_id", JVal.str "abc")] "t"
      (fun _ => HttpOutcome.resp 200 "" (some [("id", JVal.str "bad id")]))).res =
      some (true, "I do not have an answer yet.") ∧
    (llm_exchange "hi"
      [("llm", JVal.dict [("model", JVal.str "m"), ("api_key_file", JVal.str "f")])]
      "k" [("previous_response_id", JVal.str "abc")] "t"
      (fun _ => HttpOutcome.resp 200 "" (some [("id", JVal.str "bad id")]))).respJson =
      some [("id", JVal.str "bad id")] ∧
    dget (llm_exchange "hi"
      [("llm", JVal.dict [("model", JVal.str "m"), ("api_key_file", JVal.str "f")])]
      "k" [("previous_response_id", JVal.str "abc")] "t"
      (fun _ => HttpOutcome.resp 200 "" (some [("id", JVal.str "bad id")]))).state
      "previous_response_id" = some (JVal.str "abc") ∧
    ("abc" : String) ≠ "bad id" :=
  ⟨rfl, rfl, rfl, by decide⟩

theorem c8_witness :
    dget (llm_exchange "hi"
      [("llm", JVal.dict [("model", JVal.str "m"), ("api_key_file", JVal.str "f")])]
      "k" [] "t"
      (fun _ => HttpOutcome.resp 200 "" (some [("id", JVal.str "xyz"),
        ("output", JVal.list [JVal.dict [("content", JVal.list [JVal.dict
          [("type", JVal.str "output_text"),
           ("text", JVal.str "ok.")]])]])]))).state "previous_response_id" =
      some (JVal.str "xyz") :=
  c8_success_stores_safe_id "hi"
    [("llm", JVal.dict [("model", JVal.str "m"), ("api_key_file", JVal.str "f")])]
    "k" [] "t"
    (fun _ => HttpOutcome.resp 200 "" (some [("id", JVal.str "xyz"),
        ("output", JVal.list [JVal.dict [("content", JVal.list [JVal.dict
          [("type", JVal.str "output_text"),
           ("text", JVal.str "ok.")]])]])]))
    [("id", JVal.str "xyz"),
     ("output", JVal.list [JVal.dict [("content", JVal.list [JVal.dict
       [("type", JVal.str "output_text"), ("text", JVal.str "ok.")]])]])]
    "ok." rfl rfl (by decide) (by decide)

/-- C6 (amended): when the stored previous_response_id is a non-empty safe
string and the request carrying it is answered with HTTP 400, llm_exchange
clears the stored id and retries exactly once without it; if that single
retry also fails, the exchange fails (as a transport-style error) with no
further request, the stored id remaining cleared.  (The original claim says
any HTTP 4xx triggers this; the code tests for status 400 exactly — see the
status-422 counterexample.) -/
theorem c6_retry_once_on_400 (u : String) (cfg llm : Dict) (key : String)
    (st0 : Dict) (ts : String) (http : PayloadM → HttpOutcome)
    (p : String) (tmo mo : Int) (temp : ℚ) (body : String) (j400 : Option Dict)
    (h1 : pyStrip u ≠ "")
    (h2 : pyOr ((dget cfg "llm").getD JVal.null) (JVal.dict []) = JVal.dict llm)
    (h3 : llmInt llm "timeout_sec" 30 = some tmo)
    (h4 : llmInt llm "max_output_tokens" 300 = some mo)
    (h5 : llmFloat llm "temperature" (2/5) = some temp)
    (h6 : llmField llm "model" "" ≠ "")
    (h7 : llmField llm "api_key_file" "" ≠ "")
    (h8 : pyStrip key ≠ "")
    (h9 : llmField st0 "previous_response_id" "" = p)
    (h10 : p ≠ "")
    (h11 : id_is_safe p = true)
    (h12 : http (llm_payload llm (pyStrip u) mo temp (some p)) =
      HttpOutcome.resp 400 body j400) :
    (llm_exchange u cfg key st0 ts http).requests =
      [llm_payload llm (pyStrip u) mo temp (some p),
       llm_payload llm (pyStrip u) mo temp none] ∧
    ((do_request http (llm_payload llm (pyStrip u) mo temp none)).1 = false →
      (∃ d, (llm_exchange u cfg key st0 ts http).res = some (false, d)) ∧
      dget (llm_exchange u cfg key st0 ts http).state "previous_response_id" =
        none) := by
  have hcl : ¬ (p ≠ "" ∧ ¬ id_is_safe p = true) := by
    simp [h11]
  have hred : llm_exchange u cfg key st0 ts http =
      llm_finish (pick_session_id llm) ts
        (dset (dremove st0 "previous_response_id") "updated_at" (JVal.str ts))
        (do_request http (llm_payload llm (pyStrip u) mo temp none))
        [llm_payload llm (pyStrip u) mo temp (some p),
         llm_payload llm (pyStrip u) mo temp none] := by
    simp only [llm_exchange]
    rw [if_neg h1]
    simp only [h2, h3, h4, h5]
    rw [if_neg h6, if_neg h7, if_neg h8]
    simp only [h9, if_neg hcl, if_pos h10]
    have hfirst : do_request http (llm_payload llm (pyStrip u) mo temp (some p)) =
        (false, "LLM http=" ++ toString 400 ++ " body=" ++ truncBody body, none,
          400, truncBody body) := by
      unfold do_request
      rw [h12]
      rfl
    rw [hfirst]
    rw [if_pos ⟨by simp, rfl, h10⟩]
  refine ⟨?_, ?_⟩
  · rw [hred, llm_finish_requests]
  · intro hfail
    rw [hred, llm_finish_fail _ _ _ _ _ hfail]
    refine ⟨⟨_, rfl⟩, ?_⟩
    rw [dget_dset, if_neg (by decide), dget_dremove_self]

/-- C6 counterexample: an HTTP 422 answer — a 4xx client rejection — to a
request carrying a stored previous_response_id triggers NO retry and does
not clear the stored id: exactly one request is issued, the exchange fails,
and the id "abc" is still stored. -/
theorem c6_counterexample :
    (llm_exchange "hi"
      [("llm", JVal.dict [("model", JVal.str "m"), ("api_key_file", JVal.str "f")])]
      "k" [("previous_response_id", JVal.str "abc")] "t"
      (fun _ => HttpOutcome.resp 422 "bad" none)).requests.length = 1 ∧
    (llm_exchange "hi"
      [("llm", JVal.dict [("model", JVal.str "m"), ("api_key_file", JVal.str "f")])]
      "k" [("previous_response_id", JVal.str "abc")] "t"
      (fun _ => HttpOutcome.resp 422 "bad" none)).res =
      some (false, "LLM http=422 body=bad") ∧
    dget (llm_exchange "hi"
      [("llm", JVal.dict [("model", JVal.str "m"), ("api_key_file", JVal.str "f")])]
      "k" [("previous_response_id", JVal.str "abc")] "t"
      (fun _ => HttpOutcome.resp 422 "bad" none)).state "previous_response_id" =
      some (JVal.str "abc") :=
  ⟨rfl, rfl, rfl⟩

theorem c6_witness :
    (llm_exchange "hi"
      [("llm", JVal.dict [("model", JVal.str "m"), ("api_key_file", JVal.str "f")])]
      "k" [("previous_response_id", JVal.str "abc")] "t"
      (fun q => if q.prev = some "abc" then HttpOutcome.resp 400 "stale" none
        else HttpOutcome.exc "down")).requests =
      [llm_payload [("model", JVal.str "m"), ("api_key_file", JVal.str "f")]
        (pyStrip "hi") 300 (2/5) (some "abc"),
       llm_payload [("model", JVal.str "m"), ("api_key_file", JVal.str "f")]
        (pyStrip "hi") 300 (2/5) none] ∧
    (∃ d, (llm_exchange "hi"
      [("llm", JVal.dict [("model", JVal.str "m"), ("api_key_file", JVal.str "f")])]
      "k" [("previous_response_id", JVal.str "abc")] "t"
      (fun q => if q.prev = some "abc" then HttpOutcome.resp 400 "stale" none
        else HttpOutcome.exc "down")).res = some (false, d)) ∧
    dget (llm_exchange "hi"
      [("llm", JVal.dict [("model", JVal.str "m"), ("api_key_file", JVal.str "f")])]
      "k" [("previous_response_id", JVal.str "abc")] "t"
      (fun q => if q.prev = some "abc" then HttpOutcome.resp 400 "stale" none
        else HttpOutcome.exc "down")).state "previous_response_id" = none := by
  have h := c6_retry_once_on_400 "hi"
    [("llm", JVal.dict [("model", JVal.str "m"), ("api_key_file", JVal.str "f")])]
    [("model", JVal.str "m"), ("api_key_file", JVal.str "f")]
    "k" [("previous_response_id", JVal.str "abc")] "t"
    (fun q => if q.prev = some "abc" then HttpOutcome.resp 400 "stale" none
      else HttpOutcome.exc "down")
    "abc" 30 300 (2/5) "stale" none
    (by decide) rfl rfl rfl rfl (by decide) (by decide) (by decide) rfl
    (by decide) (by decide) rfl
  exact ⟨h.1, (h.2 rfl).1, (h.2 rfl).2⟩

-- ---------------------------------------------------------------------------
-- Service-loop lemmas
-- ---------------------------------------------------------------------------

theorem sanitize_mode_deaf : sanitize_mode "deaf" = "deaf" := by decide

theorem sanitize_mode_nl : sanitize_mode "name_listen" = "name_listen" := by decide

theorem sanitize_mode_conv : sanitize_mode "conversation" = "conversation" := by decide

theorem sanitize_mode_llm : sanitize_mode "llm_dummy" = "llm_dummy" := by decide

theorem enter_mode_fst (cfg : Dict) (m : String) :
    (enter_mode cfg m).1 = sanitize_mode m := rfl

/-- Outcomes of the name_listen branch: unchanged mode, or conversation via a
wake match. -/
theorem nameListenStep_out (c : String) (cfg : Dict) (i : SvcInput) (s : SvcState)
    (rs : List Reason) :
    (∃ s', nameListenStep c cfg i s rs = Except.ok (s', rs) ∧ s'.mode = s.mode) ∨
    (∃ s', nameListenStep c cfg i s rs = Except.ok (s', rs ++ [Reason.wake_match]) ∧
      s'.mode = "conversation") := by
  unfold nameListenStep
  split
  · exact Or.inl ⟨s, rfl, rfl⟩
  · dsimp only
    split <;> split <;>
      first
        | exact Or.inr ⟨_, rfl, rfl⟩
        | exact Or.inl ⟨s, rfl, rfl⟩

/-- Outcomes of the conversation branch: a raise or an uneventful pass keep
the mode; a timeout enters name_listen; an `enter.llm` hit enters llm_dummy. -/
theorem convStep_out (cfg : Dict) (i : SvcInput) (s : SvcState) (rs : List Reason) :
    (∃ s', convStep cfg i s rs = Except.error (s', rs) ∧ s'.mode = s.mode) ∨
    (∃ s', convStep cfg i s rs = Except.ok (s', rs) ∧ s'.mode = s.mode) ∨
    (∃ s', convStep cfg i s rs = Except.ok (s', rs ++ [Reason.conversation_timeout]) ∧
      s'.mode = "name_listen") ∨
    (∃ s', convStep cfg i s rs = Except.ok (s', rs ++ [Reason.enter_llm_action]) ∧
      s'.mode = "llm_dummy") := by
  unfold convStep
  split
  · exact Or.inl ⟨s, rfl, rfl⟩
  · split
    · exact Or.inr (Or.inr (Or.inl ⟨_, rfl, rfl⟩))
    · split
      · exact Or.inr (Or.inl ⟨s, rfl, rfl⟩)
      · dsimp only
        split
        · split
          · exact Or.inl ⟨_, rfl, by split <;> rfl⟩
          · exact Or.inr (Or.inl ⟨_, rfl, by split <;> rfl⟩)
          · split
            · exact Or.inr (Or.inr (Or.inr ⟨_, rfl, by split <;> rfl⟩))
            · exact Or.inr (Or.inl ⟨_, rfl, by split <;> rfl⟩)
        · exact Or.inl ⟨_, rfl, by split <;> rfl⟩

/-- Outcomes of the llm_dummy branch: a raise or an uneventful pass keep the
mode (possibly refreshing the activity timestamp); a timeout enters
name_listen. -/
theorem llmStep_out (cfg : Dict) (i : SvcInput) (s : SvcState) (rs : List Reason) :
    (∃ s', llmStep cfg i s rs = Except.error (s', rs) ∧ s'.mode = s.mode) ∨
    (∃ s', llmStep cfg i s rs = Except.ok (s', rs) ∧ s'.mode = s.mode) ∨
    (∃ s', llmStep cfg i s rs = Except.ok (s', rs ++ [Reason.llm_timeout]) ∧
      s'.mode = "name_listen") := by
  unfold llmStep
  split
  · exact Or.inl ⟨s, rfl, rfl⟩
  · split
    · exact Or.inr (Or.inr ⟨_, rfl, rfl⟩)
    · split
      · exact Or.inr (Or.inl ⟨s, rfl, rfl⟩)
      · dsimp only
        split
        · exact Or.inr (Or.inl ⟨_, rfl, rfl⟩)
        · exact Or.inr (Or.inl ⟨s, rfl, rfl⟩)



theorem nl_ne_deaf : ("name_listen" : String) ≠ "deaf" := by decide

set_option maxHeartbeats 1600000 in
/-- Every try-body outcome obeys the mode-change discipline. -/
theorem stepCore_shape (c : String) (s : SvcState) (i : SvcInput) (f0 : Option Dict) :
    modeOutcome s (stepCore c s i f0) := by
  unfold stepCore
  split
  · rfl
  · dsimp only
    split
    · rfl
    · rename_i requested hreq
      split
      · rename_i hext
        obtain ⟨hdn, -⟩ := of_decide_eq_true hext
        rcases hdn with rfl | rfl
        · rw [enter_mode_fst, sanitize_mode_deaf]
          split <;> exact Or.inr (Or.inl rfl)
        · rw [enter_mode_fst, sanitize_mode_nl]
          split
          · dsimp only
            rw [if_neg nl_ne_deaf]
            split
            · exact Or.inr (Or.inr (Or.inl rfl))
            · rw [if_pos rfl]
              rcases nameListenStep_out c ((load_voice_config f0).1) i _
                  [Reason.external_request] with ⟨s', h, hm⟩ | ⟨s', h, hm⟩ <;> rw [h]
              · exact Or.inr (Or.inr (Or.inl hm))
              · exact Or.inr (Or.inr (Or.inr (Or.inl ⟨hm, by simp⟩)))
          · dsimp only
            rw [if_neg nl_ne_deaf]
            split
            · exact Or.inr (Or.inr (Or.inl rfl))
            · rw [if_pos rfl]
              rcases nameListenStep_out c ((load_voice_config f0).1) i _
                  [Reason.external_request] with ⟨s', h, hm⟩ | ⟨s', h, hm⟩ <;> rw [h]
              · exact Or.inr (Or.inr (Or.inl hm))
              · exact Or.inr (Or.inr (Or.inr (Or.inl ⟨hm, by simp⟩)))
      · split
        · dsimp only
          split
          · exact Or.inl rfl
          · split
            · exact Or.inr (Or.inr (Or.inl rfl))
            · split
              · rcases nameListenStep_out c ((load_voice_config f0).1) i _ []
                    with ⟨s', h, hm⟩ | ⟨s', h, hm⟩ <;> rw [h]
                · exact Or.inl hm
                · exact Or.inr (Or.inr (Or.inr (Or.inl ⟨hm, by simp⟩)))
              · split
                · rcases convStep_out ((load_voice_config f0).1) i _ []
                      with ⟨s', h, hm⟩ | ⟨s', h, hm⟩ | ⟨s', h, hm⟩ | ⟨s', h, hm⟩ <;> rw [h]
                  · exact hm
                  · exact Or.inl hm
                  · exact Or.inr (Or.inr (Or.inl hm))
                  · exact Or.inr (Or.inr (Or.inr (Or.inr ⟨hm, by simp⟩)))
                · split
                  · rcases llmStep_out ((load_voice_config f0).1) i _ []
                        with ⟨s', h, hm⟩ | ⟨s', h, hm⟩ | ⟨s', h, hm⟩ <;> rw [h]
                    · exact hm
                    · exact Or.inl hm
                    · exact Or.inr (Or.inr (Or.inl hm))
                  · exact Or.inr (Or.inr (Or.inl rfl))
        · dsimp only
          split
          · exact Or.inl rfl
          · split
            · exact Or.inr (Or.inr (Or.inl rfl))
            · split
              · rcases nameListenStep_out c ((load_voice_config f0).1) i _ []
                    with ⟨s', h, hm⟩ | ⟨s', h, hm⟩ <;> rw [h]
                · exact Or.inl hm
                · exact Or.inr (Or.inr (Or.inr (Or.inl ⟨hm, by simp⟩)))
              · split
                · rcases convStep_out ((load_voice_config f0).1) i _ []
                      with ⟨s', h, hm⟩ | ⟨s', h, hm⟩ | ⟨s', h, hm⟩ | ⟨s', h, hm⟩ <;> rw [h]
                  · exact hm
                  · exact Or.inl hm
                  · exact Or.inr (Or.inr (Or.inl hm))
                  · exact Or.inr (Or.inr (Or.inr (Or.inr ⟨hm, by simp⟩)))
                · split
                  · rcases llmStep_out ((load_voice_config f0).1) i _ []
                        with ⟨s', h, hm⟩ | ⟨s', h, hm⟩ | ⟨s', h, hm⟩ <;> rw [h]
                    · exact hm
                    · exact Or.inl hm
                    · exact Or.inr (Or.inr (Or.inl hm))
                  · exact Or.inr (Or.inr (Or.inl rfl))

set_option maxHeartbeats 1600000 in
/-- When the observed requested mode is not deaf/name_listen, no
external_request transition happens in the try body. -/
theorem stepCore_noExt (c : String) (s : SvcState) (i : SvcInput) (f0 : Option Dict)
    (r : String)
    (h : sanitize_mode_v ((dget (load_voice_config f0).1 "mode").getD (JVal.str "deaf")) =
      some r)
    (hr : ¬(r = "deaf" ∨ r = "name_listen")) :
    noExt (stepCore c s i f0) := by
  unfold stepCore
  split
  · exact List.not_mem_nil _
  · dsimp only
    split
    · exact List.not_mem_nil _
    · rename_i requested hreq
      split
      · rename_i hext
        obtain ⟨hdn, -⟩ := of_decide_eq_true hext
        rw [h] at hreq
        cases Option.some.inj hreq
        exact absurd hdn hr
      · split
        · dsimp only
          split
          · exact List.not_mem_nil _
          · split
            · simp [noExt]
            · split
              · rcases nameListenStep_out c ((load_voice_config f0).1) i _ []
                    with ⟨s', h', -⟩ | ⟨s', h', -⟩ <;> rw [h'] <;> simp [noExt]
              · split
                · rcases convStep_out ((load_voice_config f0).1) i _ []
                      with ⟨s', h', -⟩ | ⟨s', h', -⟩ | ⟨s', h', -⟩ | ⟨s', h', -⟩ <;>
                    rw [h'] <;> simp [noExt]
                · split
                  · rcases llmStep_out ((load_voice_config f0).1) i _ []
                        with ⟨s', h', -⟩ | ⟨s', h', -⟩ | ⟨s', h', -⟩ <;>
                      rw [h'] <;> simp [noExt]
                  · simp [noExt]
        · dsimp only
          split
          · exact List.not_mem_nil _
          · split
            · simp [noExt]
            · split
              · rcases nameListenStep_out c ((load_voice_config f0).1) i _ []
                    with ⟨s', h', -⟩ | ⟨s', h', -⟩ <;> rw [h'] <;> simp [noExt]
              · split
                · rcases convStep_out ((load_voice_config f0).1) i _ []
                      with ⟨s', h', -⟩ | ⟨s', h', -⟩ | ⟨s', h', -⟩ | ⟨s', h', -⟩ <;>
                    rw [h'] <;> simp [noExt]
                · split
                  · rcases llmStep_out ((load_voice_config f0).1) i _ []
                        with ⟨s', h', -⟩ | ⟨s', h', -⟩ | ⟨s', h', -⟩ <;>
                      rw [h'] <;> simp [noExt]
                  · simp [noExt]

/-- Lifting stepCore_noExt through the exception handler. -/
theorem stepR_noExt (c : String) (s : SvcState) (i : SvcInput) (r : String)
    (h : observedReq s i = some r)
    (hr : ¬(r = "deaf" ∨ r = "name_listen")) :
    Reason.external_request ∉ (stepR c s i).2 := by
  unfold observedReq at h
  have hn := stepCore_noExt c s i
    (match i.extWrite with | some d => some d | none => s.file) r h hr
  unfold stepR stepTry
  cases hE : stepCore c s i
      (match i.extWrite with | some d => some d | none => s.file) with
  | ok out =>
    obtain ⟨s', rs⟩ := out
    rw [hE] at hn
    simpa [noExt] using hn
  | error out =>
    obtain ⟨s', rs⟩ := out
    rw [hE] at hn
    simp only [noExt] at hn
    dsimp only
    split
    · simp only [List.mem_append, List.mem_singleton]
      rintro (hx | hx)
      · exact hn hx
      · exact Reason.noConfusion hx
    · exact hn

/-- Lifting stepCore_shape through the exception handler: the final mode is
conversation only if it already was, or a wake match fired; llm_dummy only if
it already was, or an enter.llm action fired. -/
theorem stepR_modes (c : String) (s : SvcState) (i : SvcInput) :
    ((stepR c s i).1.mode = "conversation" →
      s.mode = "conversation" ∨ Reason.wake_match ∈ (stepR c s i).2) ∧
    ((stepR c s i).1.mode = "llm_dummy" →
      s.mode = "llm_dummy" ∨ Reason.enter_llm_action ∈ (stepR c s i).2) := by
  have hs := stepCore_shape c s i
    (match i.extWrite with | some d => some d | none => s.file)
  unfold stepR stepTry
  cases hE : stepCore c s i
      (match i.extWrite with | some d => some d | none => s.file) with
  | ok out =>
    obtain ⟨s', rs⟩ := out
    rw [hE] at hs
    simp only [modeOutcome] at hs
    dsimp only
    rcases hs with hm | hm | hm | ⟨hm, hw⟩ | ⟨hm, hw⟩
    · exact ⟨fun h' => Or.inl (hm.symm.trans h'),
        fun h' => Or.inl (hm.symm.trans h')⟩
    · exact ⟨fun h' => absurd (hm.symm.trans h') (by decide),
        fun h' => absurd (hm.symm.trans h') (by decide)⟩
    · exact ⟨fun h' => absurd (hm.symm.trans h') (by decide),
        fun h' => absurd (hm.symm.trans h') (by decide)⟩
    · exact ⟨fun _ => Or.inr hw,
        fun h' => absurd (hm.symm.trans h') (by decide)⟩
    · exact ⟨fun h' => absurd (hm.symm.trans h') (by decide),
        fun _ => Or.inr hw⟩
  | error out =>
    obtain ⟨s', rs⟩ := out
    rw [hE] at hs
    simp only [modeOutcome] at hs
    dsimp only
    split
    · constructor <;> intro h' <;> rw [enter_mode_fst, sanitize_mode_nl] at h' <;>
        simp at h'
    · exact ⟨fun h' => Or.inl (hs.symm.trans h'),
        fun h' => Or.inl (hs.symm.trans h')⟩

/-- C3: for every service-loop state and iteration, an externally written
mode request that the loop observes as conversation or llm_dummy never
produces an external_request transition (it is ignored); the external
mode-set command rejects any mode whose stripped value is neither deaf nor
name_listen, leaving the config file unchanged; and one loop iteration ends
in conversation (resp. llm_dummy) only if it already was there or a
wake-match (resp. enter.llm action) transition fired. -/
theorem c3_internal_modes_only (c : String) (s : SvcState) (i : SvcInput)
    (args : Dict) (file : Option Dict) (r m0 : String)
    (h1 : observedReq s i = some r)
    (h2 : r = "conversation" ∨ r = "llm_dummy")
    (h3 : pyOr ((dget args "mode").getD JVal.null) (JVal.str "") = JVal.str m0)
    (h4 : pyStrip m0 ≠ "deaf")
    (h5 : pyStrip m0 ≠ "name_listen") :
    Reason.external_request ∉ (stepR c s i).2 ∧
    (∃ d, exec_voice_mode_set args file = some ((false, d), file)) ∧
    ((stepR c s i).1.mode = "conversation" →
      s.mode = "conversation" ∨ Reason.wake_match ∈ (stepR c s i).2) ∧
    ((stepR c s i).1.mode = "llm_dummy" →
      s.mode = "llm_dummy" ∨ Reason.enter_llm_action ∈ (stepR c s i).2) := by
  refine ⟨stepR_noExt c s i r h1 ?_, ?_, (stepR_modes c s i).1, (stepR_modes c s i).2⟩
  · rintro (rfl | rfl) <;> rcases h2 with h2 | h2 <;> exact absurd h2 (by decide)
  · unfold exec_voice_mode_set
    rw [h3]
    dsimp only
    have hno : ¬(pyStrip m0 = "deaf" ∨ pyStrip m0 = "name_listen") := by
      rintro (h | h)
      exacts [h4 h, h5 h]
    rw [if_neg hno]
    exact ⟨_, rfl⟩

theorem c3_witness :
    Reason.external_request ∉
      (stepR "alpha" ⟨"llm_dummy", some "llm_dummy", true,
        some [("mode", JVal.str "llm_dummy")], 0, 0⟩
        ⟨none, false, false, 0, 0, 0, 0, true, none, false, ""⟩).2 ∧
    (∃ d, exec_voice_mode_set [("mode", JVal.str "conversation")] none =
      some ((false, d), none)) ∧
    ((stepR "alpha" ⟨"llm_dummy", some "llm_dummy", true,
        some [("mode", JVal.str "llm_dummy")], 0, 0⟩
        ⟨none, false, false, 0, 0, 0, 0, true, none, false, ""⟩).1.mode =
          "conversation" →
      ("llm_dummy" : String) = "conversation" ∨ Reason.wake_match ∈
        (stepR "alpha" ⟨"llm_dummy", some "llm_dummy", true,
          some [("mode", JVal.str "llm_dummy")], 0, 0⟩
          ⟨none, false, false, 0, 0, 0, 0, true, none, false, ""⟩).2) ∧
    ((stepR "alpha" ⟨"llm_dummy", some "llm_dummy", true,
        some [("mode", JVal.str "llm_dummy")], 0, 0⟩
        ⟨none, false, false, 0, 0, 0, 0, true, none, false, ""⟩).1.mode =
          "llm_dummy" →
      ("llm_dummy" : String) = "llm_dummy" ∨ Reason.enter_llm_action ∈
        (stepR "alpha" ⟨"llm_dummy", some "llm_dummy", true,
          some [("mode", JVal.str "llm_dummy")], 0, 0⟩
          ⟨none, false, false, 0, 0, 0, 0, true, none, false, ""⟩).2) :=
  c3_internal_modes_only "alpha"
    ⟨"llm_dummy", some "llm_dummy", true, some [("mode", JVal.str "llm_dummy")], 0, 0⟩
    ⟨none, false, false, 0, 0, 0, 0, true, none, false, ""⟩
    [("mode", JVal.str "conversation")] none "llm_dummy" "conversation"
    rfl (Or.inr rfl) rfl (by decide) (by decide)

/-- llm_dummy branch, timeout case. -/
theorem llmStep_timeout (cfg : Dict) (i : SvcInput) (s : SvcState)
    (rs : List Reason) (T : Int)
    (hT : pyInt (pyOr ((dget cfg "llm_timeout_sec").getD JVal.null) (JVal.num 30)) =
      some T)
    (ht : (T : ℚ) ≤ i.tCheck - s.llmLastAct) :
    llmStep cfg i s rs =
      Except.ok ({ s with mode := "name_listen",
                          file := some (enter_mode cfg "name_listen").2 },
        rs ++ [Reason.llm_timeout]) := by
  unfold llmStep
  rw [hT]
  dsimp only
  rw [if_pos ht, enter_mode_fst, sanitize_mode_nl]

/-- llm_dummy branch, no timeout and no chunk. -/
theorem llmStep_quiet (cfg : Dict) (i : SvcInput) (s : SvcState)
    (rs : List Reason) (T : Int)
    (hT : pyInt (pyOr ((dget cfg "llm_timeout_sec").getD JVal.null) (JVal.num 30)) =
      some T)
    (ht : ¬ (T : ℚ) ≤ i.tCheck - s.llmLastAct) (hc : i.chunk = none) :
    llmStep cfg i s rs = Except.ok (s, rs) := by
  unfold llmStep
  rw [hT]
  dsimp only
  rw [if_neg ht, hc]

/-- llm_dummy branch, no timeout, qualifying speech: the activity timestamp
becomes the speech/reply reset value. -/
theorem llmStep_speech (cfg : Dict) (i : SvcInput) (s : SvcState)
    (rs : List Reason) (T : Int) (u : String)
    (hT : pyInt (pyOr ((dget cfg "llm_timeout_sec").getD JVal.null) (JVal.num 30)) =
      some T)
    (ht : ¬ (T : ℚ) ≤ i.tCheck - s.llmLastAct) (hc : i.chunk = some u)
    (hq : ((normalize_text u).length : Int) ≥
      min_chars_of cfg (cfg_bool cfg "test_easy_match" false)) :
    llmStep cfg i s rs = Except.ok ({ s with llmLastAct := actOf i }, rs) := by
  unfold llmStep
  rw [hT]
  dsimp only
  rw [if_neg ht, hc]
  dsimp only
  rw [if_pos hq]

/-- In a settled llm_dummy state (mode logged, STT ready, file as loaded),
the try body reduces to the llm_dummy branch. -/
theorem stepCore_llm_red (c : String) (f : Dict) (cv la : ℚ) (i : SvcInput)
    (hreq : sanitize_mode_v ((dget (load_voice_config (some f)).1 "mode").getD
      (JVal.str "deaf")) = some "llm_dummy")
    (hx : i.exc = false) :
    stepCore c ⟨"llm_dummy", some "llm_dummy", true, some f, cv, la⟩ i (some f) =
      llmStep (load_voice_config (some f)).1 i
        ⟨"llm_dummy", some "llm_dummy", true, some f, cv, la⟩ [] := by
  unfold stepCore
  split
  · rename_i h
    rw [hx] at h
    exact Bool.noConfusion h
  · dsimp only
    split
    · rename_i h
      exact Option.noConfusion (hreq.symm.trans h)
    · rename_i requested h
      cases Option.some.inj (hreq.symm.trans h)
      split
      · rename_i hext
        obtain ⟨hdn, -⟩ := of_decide_eq_true hext
        rcases hdn with h' | h' <;> exact absurd h' (by decide)
      · split
        · rename_i hlog
          exact absurd rfl hlog
        · split
          · rename_i h'
            exact absurd h' (by simp)
          · split
            · rename_i h'
              exact Bool.noConfusion h'
            · split
              · rename_i h'
                exact absurd h' (by simp)
              · split
                · rename_i h'
                  exact absurd h' (by simp)
                · split
                  · rfl
                  · rename_i h'
                    exact absurd rfl h'

/-- Full-iteration reduction, llm_dummy timeout: the mode flips to
name_listen with reason llm_timeout. -/
theorem stepR_llm_timeout (c : String) (f : Dict) (cv la : ℚ) (i : SvcInput)
    (T : Int)
    (hreq : sanitize_mode_v ((dget (load_voice_config (some f)).1 "mode").getD
      (JVal.str "deaf")) = some "llm_dummy")
    (hx : i.exc = false) (hw : i.extWrite = none)
    (hT : pyInt (pyOr ((dget (load_voice_config (some f)).1 "llm_timeout_sec").getD
      JVal.null) (JVal.num 30)) = some T)
    (ht : (T : ℚ) ≤ i.tCheck - la) :
    stepR c ⟨"llm_dummy", some "llm_dummy", true, some f, cv, la⟩ i =
      (⟨"name_listen", some "llm_dummy", true,
        some (enter_mode (load_voice_config (some f)).1 "name_listen").2, cv, la⟩,
        [Reason.llm_timeout]) := by
  unfold stepR stepTry
  rw [hw]
  dsimp only
  rw [stepCore_llm_red c f cv la i hreq hx,
    llmStep_timeout ((load_voice_config (some f)).1) i
      ⟨"llm_dummy", some "llm_dummy", true, some f, cv, la⟩ [] T hT ht]
  rfl

/-- Full-iteration reduction, llm_dummy with no timeout and no chunk: the
state is unchanged. -/
theorem stepR_llm_quiet (c : String) (f : Dict) (cv la : ℚ) (i : SvcInput)
    (T : Int)
    (hreq : sanitize_mode_v ((dget (load_voice_config (some f)).1 "mode").getD
      (JVal.str "deaf")) = some "llm_dummy")
    (hx : i.exc = false) (hw : i.extWrite = none)
    (hT : pyInt (pyOr ((dget (load_voice_config (some f)).1 "llm_timeout_sec").getD
      JVal.null) (JVal.num 30)) = some T)
    (ht : ¬ (T : ℚ) ≤ i.tCheck - la) (hc : i.chunk = none) :
    stepR c ⟨"llm_dummy", some "llm_dummy", true, some f, cv, la⟩ i =
      (⟨"llm_dummy", some "llm_dummy", true, some f, cv, la⟩, []) := by
  unfold stepR stepTry
  rw [hw]
  dsimp only
  rw [stepCore_llm_red c f cv la i hreq hx,
    llmStep_quiet ((load_voice_config (some f)).1) i
      ⟨"llm_dummy", some "llm_dummy", true, some f, cv, la⟩ [] T hT ht hc]

/-- Full-iteration reduction, llm_dummy with no timeout and qualifying
speech: only the activity timestamp moves, to the speech/reply reset
value. -/
theorem stepR_llm_speech (c : String) (f : Dict) (cv la : ℚ) (i : SvcInput)
    (T : Int) (u : String)
    (hreq : sanitize_mode_v ((dget (load_voice_config (some f)).1 "mode").getD
      (JVal.str "deaf")) = some "llm_dummy")
    (hx : i.exc = false) (hw : i.extWrite = none)
    (hT : pyInt (pyOr ((dget (load_voice_config (some f)).1 "llm_timeout_sec").getD
      JVal.null) (JVal.num 30)) = some T)
    (ht : ¬ (T : ℚ) ≤ i.tCheck - la) (hc : i.chunk = some u)
    (hq : ((normalize_text u).length : Int) ≥
      min_chars_of (load_voice_config (some f)).1
        (cfg_bool (load_voice_config (some f)).1 "test_easy_match" false)) :
    stepR c ⟨"llm_dummy", some "llm_dummy", true, some f, cv, la⟩ i =
      (⟨"llm_dummy", some "llm_dummy", true, some f, cv, actOf i⟩, []) := by
  unfold stepR stepTry
  rw [hw]
  dsimp only
  rw [stepCore_llm_red c f cv la i hreq hx,
    llmStep_speech ((load_voice_config (some f)).1) i
      ⟨"llm_dummy", some "llm_dummy", true, some f, cv, la⟩ [] T u hT ht hc hq]

/-- C5: in mode llm_dummy (as loaded and logged, STT ready, no external
writes, no unmodelled exceptions), (1) under a speech schedule in which every
chunk qualifies and every timeout check happens strictly less than
llm_timeout_sec after the preceding activity reset, the mode never leaves
llm_dummy; (2) once activity stops entirely, with check times at most P
apart, at the first check at least llm_timeout_sec past the last activity
timestamp the mode transitions to name_listen with reason llm_timeout, and —
the timer having started below the bound — that check lies within one chunk
period P after the timeout elapsed (the timeout is measured from the last
activity, not from mode entry). -/
theorem c5_llm_dummy_timeout :
    (∀ (c : String) (f : Dict) (cv a0 : ℚ) (T : Int) (ins : ℕ → SvcInput)
      (u : ℕ → String),
      sanitize_mode_v ((dget (load_voice_config (some f)).1 "mode").getD
        (JVal.str "deaf")) = some "llm_dummy" →
      pyInt (pyOr ((dget (load_voice_config (some f)).1 "llm_timeout_sec").getD
        JVal.null) (JVal.num 30)) = some T →
      (∀ n, (ins n).exc = false) →
      (∀ n, (ins n).extWrite = none) →
      (∀ n, (ins n).chunk = some (u n)) →
      (∀ n, ((normalize_text (u n)).length : Int) ≥
        min_chars_of (load_voice_config (some f)).1
          (cfg_bool (load_voice_config (some f)).1 "test_easy_match" false)) →
      (ins 0).tCheck - a0 < T →
      (∀ n, (ins (n + 1)).tCheck - actOf (ins n) < T) →
      ∀ n, (svcRun c ⟨"llm_dummy", some "llm_dummy", true, some f, cv, a0⟩
        ins n).mode = "llm_dummy") ∧
    (∀ (c : String) (f : Dict) (cv a0 P : ℚ) (T : Int) (ins : ℕ → SvcInput),
      sanitize_mode_v ((dget (load_voice_config (some f)).1 "mode").getD
        (JVal.str "deaf")) = some "llm_dummy" →
      pyInt (pyOr ((dget (load_voice_config (some f)).1 "llm_timeout_sec").getD
        JVal.null) (JVal.num 30)) = some T →
      (∀ n, (ins n).exc = false) →
      (∀ n, (ins n).extWrite = none) →
      (∀ n, (ins n).chunk = none) →
      (∀ n, (ins (n + 1)).tCheck ≤ (ins n).tCheck + P) →
      (ins 0).tCheck - a0 < T →
      ∀ hex : ∃ n, (T : ℚ) ≤ (ins n).tCheck - a0,
        (∀ k, k ≤ Nat.find hex →
          (svcRun c ⟨"llm_dummy", some "llm_dummy", true, some f, cv, a0⟩
            ins k).mode = "llm_dummy") ∧
        (svcRun c ⟨"llm_dummy", some "llm_dummy", true, some f, cv, a0⟩
          ins (Nat.find hex + 1)).mode = "name_listen" ∧
        Reason.llm_timeout ∈
          (stepR c (svcRun c ⟨"llm_dummy", some "llm_dummy", true, some f, cv, a0⟩
            ins (Nat.find hex)) (ins (Nat.find hex))).2 ∧
        (ins (Nat.find hex)).tCheck < a0 + T + P) := by
  constructor
  · intro c f cv a0 T ins u hreq hT hx hw hc hq h0 hstep
    have key : ∀ n,
        svcRun c ⟨"llm_dummy", some "llm_dummy", true, some f, cv, a0⟩ ins n =
        ⟨"llm_dummy", some "llm_dummy", true, some f, cv,
          (n.casesOn a0 fun m => actOf (ins m) : ℚ)⟩ := by
      intro n
      induction n with
      | zero => rfl
      | succ m ih =>
        show (stepR c _ (ins m)).1 = _
        rw [ih]
        have hlt : ¬ (T : ℚ) ≤ (ins m).tCheck -
            (m.casesOn a0 fun k => actOf (ins k) : ℚ) := by
          cases m with
          | zero => exact not_le.mpr h0
          | succ k => exact not_le.mpr (hstep k)
        rw [stepR_llm_speech c f cv _ (ins m) T (u m) hreq (hx m) (hw m) hT hlt
          (hc m) (hq m)]
    intro n
    rw [key n]
  · intro c f cv a0 P T ins hreq hT hx hw hc hgap h0 hex
    have hpre : ∀ k, k ≤ Nat.find hex →
        svcRun c ⟨"llm_dummy", some "llm_dummy", true, some f, cv, a0⟩ ins k =
        ⟨"llm_dummy", some "llm_dummy", true, some f, cv, a0⟩ := by
      intro k
      induction k with
      | zero => exact fun _ => rfl
      | succ m ih =>
        intro hk
        have hmlt : m < Nat.find hex := Nat.lt_of_succ_le hk
        have hnot : ¬ (T : ℚ) ≤ (ins m).tCheck - a0 := Nat.find_min hex hmlt
        show (stepR c _ (ins m)).1 = _
        rw [ih (le_of_lt hmlt)]
        rw [stepR_llm_quiet c f cv a0 (ins m) T hreq (hx m) (hw m) hT hnot (hc m)]
    have hend : (T : ℚ) ≤ (ins (Nat.find hex)).tCheck - a0 := Nat.find_spec hex
    have hN0 : Nat.find hex ≠ 0 := by
      intro h00
      rw [h00] at hend
      exact absurd hend (not_le.mpr h0)
    refine ⟨fun k hk => by rw [hpre k hk], ?_, ?_, ?_⟩
    · show (stepR c _ (ins (Nat.find hex))).1.mode = _
      rw [hpre (Nat.find hex) le_rfl]
      rw [stepR_llm_timeout c f cv a0 (ins (Nat.find hex)) T hreq
        (hx (Nat.find hex)) (hw (Nat.find hex)) hT hend]
    · rw [hpre (Nat.find hex) le_rfl]
      rw [stepR_llm_timeout c f cv a0 (ins (Nat.find hex)) T hreq
        (hx (Nat.find hex)) (hw (Nat.find hex)) hT hend]
      simp
    · have hMlt : Nat.find hex - 1 < Nat.find hex := Nat.pred_lt hN0
      have hnotM : ¬ (T : ℚ) ≤ (ins (Nat.find hex - 1)).tCheck - a0 :=
        Nat.find_min hex hMlt
      have hg := hgap (Nat.find hex - 1)
      have heq : Nat.find hex - 1 + 1 = Nat.find hex := by omega
      rw [heq] at hg
      have := not_le.mp hnotM
      linarith

theorem c5_witness :
    (svcRun "alpha" ⟨"llm_dummy", some "llm_dummy", true,
        some [("mode", JVal.str "llm_dummy")], 0, 0⟩
      (fun _ => ⟨none, false, false, 0, 0, 0, 0, true, some "hello", true, "ok"⟩)
      5).mode = "llm_dummy" ∧
    (svcRun "alpha" ⟨"llm_dummy", some "llm_dummy", true,
        some [("mode", JVal.str "llm_dummy")], 0, 0⟩
      (fun n => ⟨none, false, false, 0, 10 * (n : ℚ), 0, 0, true, none, false, ""⟩)
      3).mode = "llm_dummy" ∧
    (svcRun "alpha" ⟨"llm_dummy", some "llm_dummy", true,
        some [("mode", JVal.str "llm_dummy")], 0, 0⟩
      (fun n => ⟨none, false, false, 0, 10 * (n : ℚ), 0, 0, true, none, false, ""⟩)
      4).mode = "name_listen" ∧
    10 * ((3 : ℕ) : ℚ) < 0 + ((30 : Int) : ℚ) + 10 := by
  have hex : ∃ n, ((30 : Int) : ℚ) ≤
      ((fun n : ℕ => (⟨none, false, false, 0, 10 * (n : ℚ), 0, 0, true, none, false,
        ""⟩ : SvcInput)) n).tCheck - 0 := ⟨3, by norm_num⟩
  have h2 := c5_llm_dummy_timeout.2 "alpha" [("mode", JVal.str "llm_dummy")] 0 0 10 30
    (fun n => ⟨none, false, false, 0, 10 * (n : ℚ), 0, 0, true, none, false, ""⟩)
    rfl (by decide) (fun _ => rfl) (fun _ => rfl) (fun _ => rfl)
    (fun n => by push_cast; linarith) (by norm_num) hex
  have hfind : Nat.find hex = 3 := by
    rw [Nat.find_eq_iff]
    refine ⟨by norm_num, ?_⟩
    intro m hm
    interval_cases m <;> norm_num
  obtain ⟨ha, hb, -, hd⟩ := h2
  rw [hfind] at ha hb hd
  refine ⟨c5_llm_dummy_timeout.1 "alpha" [("mode", JVal.str "llm_dummy")] 0 0 30
      (fun _ => ⟨none, false, false, 0, 0, 0, 0, true, some "hello", true, "ok"⟩)
      (fun _ => "hello") rfl (by decide) (fun _ => rfl) (fun _ => rfl)
      (fun _ => rfl)
      (fun _ => (by decide : ((normalize_text "hello").length : Int) ≥
        min_chars_of (load_voice_config (some [("mode", JVal.str "llm_dummy")])).1
          (cfg_bool (load_voice_config (some [("mode", JVal.str "llm_dummy")])).1
            "test_easy_match" false)))
      (by norm_num)
      (fun _ => (by decide :
        (⟨none, false, false, 0, 0, 0, 0, true, some "hello", true, "ok"⟩ :
          SvcInput).tCheck -
          actOf ⟨none, false, false, 0, 0, 0, 0, true, some "hello", true, "ok"⟩ <
          ((30 : Int) : ℚ))) 5,
    ha 3 le_rfl, hb, hd⟩
